import Mathlib

/-!
Shallow embedding of the chessbench response-parsing and legality-validation
pipeline (`bench/run.ts`, `bench/utils.ts`, and the `parseContent` variant of
the evaluation script).  JavaScript strings are modelled as Lean `String`s
(operated on through `List Char`); the regex scans of `extractUciTokens` and
`extractSanCandidates` are implemented as explicit backtracking matchers with
JS regex semantics (ordered alternation, greedy optional elements, `\b` word
boundaries, `g`-flag scanning); the external chess.js rules engine is an
explicit parameter (`ChessEngine`), since the repository treats it as an
external collaborator; JS exceptions of fallible code are modelled with
`Option`.
-/

namespace Chessbench

/-- Character model of the JS `\s` class restricted to ASCII (space, tab,
newline, carriage return, vertical tab, form feed). -/
def jsWhitespace (c : Char) : Bool :=
  c = ' ' || c = '\t' || c = '\n' || c = '\r' || c = '\x0b' || c = '\x0c'

/-- Word characters of the JS `\w` class used by `\b`: ASCII letters, digits,
underscore. -/
def wordChar (c : Char) : Bool :=
  ('a' ≤ c && c ≤ 'z') || ('A' ≤ c && c ≤ 'Z') || ('0' ≤ c && c ≤ '9') || c = '_'

/-- Word-character test lifted to an optional character (absent = out of the
string = non-word side). -/
def wordCharOpt : Option Char → Bool
  | none => false
  | some c => wordChar c

/-- JS `\b` word boundary between two (possibly absent) neighbouring
characters. -/
def bdry (prev next : Option Char) : Bool :=
  wordCharOpt prev != wordCharOpt next

/-- ASCII model of JS `String.prototype.toLowerCase` on one character (all
characters produced by the matchers below are ASCII). -/
def jsToLower (c : Char) : Char :=
  match c with
  | 'A' => 'a' | 'B' => 'b' | 'C' => 'c' | 'D' => 'd' | 'E' => 'e' | 'F' => 'f'
  | 'G' => 'g' | 'H' => 'h' | 'I' => 'i' | 'J' => 'j' | 'K' => 'k' | 'L' => 'l'
  | 'M' => 'm' | 'N' => 'n' | 'O' => 'o' | 'P' => 'p' | 'Q' => 'q' | 'R' => 'r'
  | 'S' => 's' | 'T' => 't' | 'U' => 'u' | 'V' => 'v' | 'W' => 'w' | 'X' => 'x'
  | 'Y' => 'y' | 'Z' => 'z' | _ => c

/-- Character class `[a-h]` under the regex `i` flag (enumerated). -/
def isFileCI (c : Char) : Bool :=
  c = 'a' || c = 'b' || c = 'c' || c = 'd' || c = 'e' || c = 'f' || c = 'g' || c = 'h' ||
  c = 'A' || c = 'B' || c = 'C' || c = 'D' || c = 'E' || c = 'F' || c = 'G' || c = 'H'

/-- Character class `[1-8]` (enumerated). -/
def isRankCh (c : Char) : Bool :=
  c = '1' || c = '2' || c = '3' || c = '4' || c = '5' || c = '6' || c = '7' || c = '8'

/-- Character class `[qrbn]` under the regex `i` flag. -/
def isPromoCI (c : Char) : Bool :=
  c = 'q' || c = 'r' || c = 'b' || c = 'n' || c = 'Q' || c = 'R' || c = 'B' || c = 'N'

/-- Worker for `splitRuns`: `acc` holds the reversed current run of
non-separator characters. -/
def splitRunsAux (p : Char → Bool) : List Char → List Char → List (List Char)
  | [], acc => if acc = [] then [] else [acc.reverse]
  | c :: cs, acc =>
    if p c then
      (if acc = [] then splitRunsAux p cs [] else acc.reverse :: splitRunsAux p cs [])
    else splitRunsAux p cs (c :: acc)

/-- Maximal runs of non-separator characters: models JS
`s.split(sep).filter(Boolean)` for a one-character separator class `p`, and
`s.trim().split(/\s+/).filter(Boolean)` when `p` is the whitespace class. -/
def splitRuns (p : Char → Bool) (cs : List Char) : List (List Char) :=
  splitRunsAux p cs []

/-- Join tokens with a single separator character (JS `array.join(" ")`). -/
def joinSep (sep : Char) : List (List Char) → List Char
  | [] => []
  | [t] => t
  | t :: ts => t ++ sep :: joinSep sep ts

/-- JS `String.prototype.trim` on a character list (drop whitespace at both
ends). -/
def jsTrimList (cs : List Char) : List Char :=
  ((cs.dropWhile jsWhitespace).reverse.dropWhile jsWhitespace).reverse

/-- Streaming de-duplication with a `seen` set, as in the extractor loops
(`if (seen.has(tok)) continue; seen.add(tok); out.push(tok)`). -/
def dedupFirstAux : List String → List String → List String
  | [], _ => []
  | x :: xs, seen =>
    if x ∈ seen then dedupFirstAux xs seen else x :: dedupFirstAux xs (x :: seen)

/-- De-duplicate keeping the first occurrence of every element. -/
def dedupFirst (l : List String) : List String :=
  dedupFirstAux l []

/-- Match `[a-h][1-8]` (case-insensitive) at the head of the input. -/
def matchSq : List Char → Option (Char × Char × List Char)
  | c1 :: c2 :: rest =>
    if isFileCI c1 && isRankCh c2 then some (c1, c2, rest) else none
  | _ => none

/-- Backtracking choices of a greedy `\s*`: consume k = max, max−1, …, 0
whitespace characters; each choice carries the last consumed character (if
any) and the remaining input, longest consumption first. -/
def wsChoices (cs : List Char) : List (Option Char × List Char) :=
  let w := cs.takeWhile jsWhitespace
  let r := cs.dropWhile jsWhitespace
  (List.range (w.length + 1)).reverse.map fun k =>
    ((w.take k).getLast?, w.drop k ++ r)

/-- Step `\s*([a-h][1-8])` reaching the destination square of the UCI regex
(the `\s*` is forced: whitespace and square characters are disjoint). -/
def uciTrySq (f1 r1 : Char) (s : List Char) : Option (Char × Char × Char × Char × List Char) :=
  match matchSq (s.dropWhile jsWhitespace) with
  | some (f2, r2, rest) => some (f1, r1, f2, r2, rest)
  | none => none

/-- Deterministic part `([a-h][1-8])\s*[-:]?\s*([a-h][1-8])` of the UCI regex
in `extractUciTokens`: origin square, optional separator (tried consumed
first), destination square.  The whitespace stars are forced here because
whitespace, `-`/`:` and square characters are disjoint classes. -/
def uciFront (cs : List Char) : Option (Char × Char × Char × Char × List Char) :=
  match matchSq cs with
  | none => none
  | some (f1, r1, s1) =>
    let s2 := s1.dropWhile jsWhitespace
    match s2 with
    | c :: s3 =>
      if c = '-' || c = ':' then (uciTrySq f1 r1 s3).orElse (fun _ => uciTrySq f1 r1 s2)
      else uciTrySq f1 r1 s2
    | [] => none

/-- Inner `\s*([qrbn])` of the optional promotion group, with the greedy
`\s*` tried longest first and the following position required to be a word
boundary. -/
def uciPromoBody (s : List Char) : Option (Option Char × Char × List Char) :=
  (wsChoices s).findSome? fun ws2 =>
    match ws2.2 with
    | c :: rest =>
      if isPromoCI c && bdry (some c) rest.head? then some (some c, c, rest) else none
    | [] => none

/-- Trailing `\s*(?:=?\s*([qrbn]))?\b` of the UCI regex, with JS backtracking
order: the greedy `\s*` varies slowest (longest first), the optional promotion
group is tried present first (and `=` consumed first inside it), and the final
position must be a word boundary.  `prev` is the rank character of the
destination square; on success the promotion letter (if any), the last
consumed character of the whole match, and the rest are returned. -/
def uciTail (prev : Char) (cs : List Char) : Option (Option Char × Char × List Char) :=
  (wsChoices cs).findSome? fun ws =>
    let last1 := ws.1.getD prev
    let suf := ws.2
    let promo : Option (Option Char × Char × List Char) :=
      match suf with
      | '=' :: s2 => (uciPromoBody s2).orElse fun _ => uciPromoBody suf
      | _ => uciPromoBody suf
    promo.orElse fun _ =>
      if bdry (some last1) suf.head? then some (none, last1, suf) else none

/-- One attempt of the full UCI regex at the current position (the leading
`\b` is checked by the scanner).  On success: the normalized token (captured
groups lowercased and concatenated, as in the extractor loop), the last
consumed character, and the rest of the input. -/
def matchUciAt (cs : List Char) : Option (String × Char × List Char) :=
  match uciFront cs with
  | none => none
  | some (f1, r1, f2, r2, rest) =>
    (uciTail r2 rest).map fun pr =>
      let promoChars : List Char :=
        match pr.1 with
        | some p => [jsToLower p]
        | none => []
      (String.mk ([jsToLower f1, jsToLower r1, jsToLower f2, jsToLower r2] ++ promoChars),
        pr.2.1, pr.2.2)

/-- `regex.exec` scanning loop under the `g` flag: try the match at each
position left to right; after a success continue at the match end.  `fuel`
bounds the number of steps; every step consumes at least one character, so
`input length + 1` steps are always enough. -/
def uciScanAux : Nat → Option Char → List Char → List String
  | 0, _, _ => []
  | _ + 1, _, [] => []
  | fuel + 1, prev, c :: cs =>
    match (if bdry prev (some c) then matchUciAt (c :: cs) else none) with
    | some (tok, last, rest) => tok :: uciScanAux fuel (some last) rest
    | none => uciScanAux fuel (some c) cs

/-- Ordered stream of UCI-regex matches in a text, before de-duplication. -/
def uciMatchStream (text : String) : List String :=
  uciScanAux (text.toList.length + 1) none text.toList

/-- Model of `extractUciTokens` (bench/run.ts lines 53–72): scan the text with
the permissive UCI regex, normalize every match to a lowercase token, and
de-duplicate keeping first-seen order. -/
def extractUciTokens (text : String) : List String :=
  dedupFirst (uciMatchStream text)

/-- Character class `[KQRBN]` (case-sensitive, the SAN regex has no `i`
flag). -/
def isPieceCh (c : Char) : Bool :=
  c = 'K' || c = 'Q' || c = 'R' || c = 'B' || c = 'N'

/-- Character class `[a-h]` (case-sensitive, enumerated). -/
def isFileLower (c : Char) : Bool :=
  c = 'a' || c = 'b' || c = 'c' || c = 'd' || c = 'e' || c = 'f' || c = 'g' || c = 'h'

/-- Character class `[QRBN]` of SAN promotion pieces (case-sensitive). -/
def isPromoUpper (c : Char) : Bool :=
  c = 'Q' || c = 'R' || c = 'B' || c = 'N'

/-- Character class `[+#]` of SAN check and mate suffixes. -/
def isCheckCh (c : Char) : Bool :=
  c = '+' || c = '#'

/-- Trailing `(?:=[QRBN])?[+#]?\b` shared by the third and fourth SAN
alternatives, in JS backtracking order: promotion-present first, check-present
first, final word boundary.  `lastc` is the last character matched so far; on
success the extra consumed characters, the new last character, and the rest
are returned. -/
def sanTail (lastc : Char) (cs : List Char) : Option (List Char × Char × List Char) :=
  let tryCheck (lc : Char) (cs2 : List Char) : Option (List Char × Char × List Char) :=
    (match cs2 with
      | c :: r => if isCheckCh c && bdry (some c) r.head? then some ([c], c, r) else none
      | [] => none).orElse fun _ =>
      if bdry (some lc) cs2.head? then some ([], lc, cs2) else none
  match cs with
  | '=' :: p :: r =>
    if isPromoUpper p then
      match tryCheck p r with
      | some (ex, lc, rest) => some ('=' :: p :: ex, lc, rest)
      | none => tryCheck lastc cs
    else tryCheck lastc cs
  | _ => tryCheck lastc cs

/-- Mandatory destination square `[a-h][1-8]` of the SAN alternatives
(case-sensitive). -/
def sanSq : List Char → Option (Char × Char × List Char)
  | c1 :: c2 :: rest =>
    if isFileLower c1 && isRankCh c2 then some (c1, c2, rest) else none
  | _ => none

/-- Optional one-character element of the SAN regex: try consuming (greedy)
first, then the empty alternative; `k` continues with the consumed prefix and
the rest. -/
def tryOpt (p : Char → Bool) (k : List Char → List Char → Option (List Char × Char × List Char))
    (pre : List Char) (cs : List Char) : Option (List Char × Char × List Char) :=
  (match cs with
    | c :: r => if p c then k (pre ++ [c]) r else none
    | [] => none).orElse fun _ => k pre cs

/-- Tail of the third SAN alternative after the optional prefix elements:
destination square, promotion/check suffix, word boundary. -/
def sanAlt3Core (pre : List Char) (cs : List Char) : Option (List Char × Char × List Char) :=
  match sanSq cs with
  | some (f, r, rest) =>
    (sanTail r rest).map fun ex => (pre ++ [f, r] ++ ex.1, ex.2.1, ex.2.2)
  | none => none

/-- Third SAN alternative `[KQRBN]?[a-h]?[1-8]?x?[a-h][1-8](?:=[QRBN])?[+#]?`
followed by `\b`, with JS backtracking order (each optional element greedy,
rightmost decision backtracked first). -/
def sanAlt3 (cs : List Char) : Option (List Char × Char × List Char) :=
  tryOpt isPieceCh
    (tryOpt isFileLower
      (tryOpt isRankCh
        (tryOpt (fun c => c = 'x') sanAlt3Core))) [] cs

/-- Fourth SAN alternative `[a-h]x[a-h][1-8](?:=[QRBN])?[+#]?` followed by
`\b`. -/
def sanAlt4 (cs : List Char) : Option (List Char × Char × List Char) :=
  match cs with
  | f :: 'x' :: rest =>
    if isFileLower f then sanAlt3Core [f, 'x'] rest else none
  | _ => none

/-- First SAN alternative: the literal `O-O-O` followed by `\b`. -/
def sanAltOOO (cs : List Char) : Option (List Char × Char × List Char) :=
  match cs with
  | 'O' :: '-' :: 'O' :: '-' :: 'O' :: r =>
    if bdry (some 'O') r.head? then some (['O', '-', 'O', '-', 'O'], 'O', r) else none
  | _ => none

/-- Second SAN alternative: the literal `O-O` followed by `\b`. -/
def sanAltOO (cs : List Char) : Option (List Char × Char × List Char) :=
  match cs with
  | 'O' :: '-' :: 'O' :: r =>
    if bdry (some 'O') r.head? then some (['O', '-', 'O'], 'O', r) else none
  | _ => none

/-- One attempt of the full SAN regex at the current position: ordered
alternation `O-O-O | O-O | alt3 | alt4` (the leading `\b` is checked by the
scanner).  The captured token is kept verbatim (no lowercasing in
`extractSanCandidates`). -/
def matchSanAt (cs : List Char) : Option (String × Char × List Char) :=
  (((sanAltOOO cs).orElse fun _ => (sanAltOO cs).orElse fun _ =>
      (sanAlt3 cs).orElse fun _ => sanAlt4 cs)).map fun m =>
    (String.mk m.1, m.2.1, m.2.2)

/-- `g`-flag scanning loop for the SAN regex (same shape as `uciScanAux`). -/
def sanScanAux : Nat → Option Char → List Char → List String
  | 0, _, _ => []
  | _ + 1, _, [] => []
  | fuel + 1, prev, c :: cs =>
    match (if bdry prev (some c) then matchSanAt (c :: cs) else none) with
    | some (tok, last, rest) => tok :: sanScanAux fuel (some last) rest
    | none => sanScanAux fuel (some c) cs

/-- Ordered stream of SAN-regex matches in a text, before de-duplication. -/
def sanMatchStream (text : String) : List String :=
  sanScanAux (text.toList.length + 1) none text.toList

/-- Model of `extractSanCandidates` (bench/run.ts lines 74–89): scan the text
with the heuristic SAN regex and de-duplicate keeping first-seen order. -/
def extractSanCandidates (text : String) : List String :=
  dedupFirst (sanMatchStream text)



/-- Model of `normalizeUciLine` (bench/run.ts lines 45–51):
`line.trim().split(/\s+/g).filter(Boolean).join(" ")` (the trim is subsumed by
splitting on whitespace runs and dropping empty pieces). -/
def normalizeUciLine (line : String) : String :=
  String.mk (joinSep ' ' (splitRuns jsWhitespace line.toList))

/-- ASCII model of JS `toLowerCase` on a string. -/
def strToLower (s : String) : String :=
  String.mk (s.toList.map jsToLower)

/-- Model of `scoreMove` (bench/run.ts lines 112–114): case-insensitive
equality of the whitespace-normalized lines. -/
def scoreMove (expectedLine gotLine : String) : Bool :=
  strToLower (normalizeUciLine expectedLine) == strToLower (normalizeUciLine gotLine)

/-- Model of `isUciMove` (bench/run.ts lines 138–140): the shape test
`^[a-h][1-8][a-h][1-8][qrbn]?$` (`i` flag) on the trimmed token. -/
def isUciMove (tok : String) : Bool :=
  match jsTrimList tok.toList with
  | [a, b, c, d] => isFileCI a && isRankCh b && isFileCI c && isRankCh d
  | [a, b, c, d, e] => isFileCI a && isRankCh b && isFileCI c && isRankCh d && isPromoCI e
  | _ => false

/-- Puzzle difficulty levels (bench/types.ts `MateLevel`). -/
inductive MateLevel
  | mate1
  | mate2
  | mate3
  deriving DecidableEq

/-- Model of `requiredPlies` (bench/run.ts lines 39–43): a function of the
level alone. -/
def requiredPlies : MateLevel → Nat
  | .mate1 => 1
  | .mate2 => 3
  | .mate3 => 5

/-- Move record returned by chess.js `.move(...)`: origin and destination
squares, optional promotion piece, SAN rendering. -/
structure MoveRec where
  fromSq : String
  toSq : String
  promotion : Option String
  san : String

/-- The external chess.js rules engine as an abstract collaborator.  `init`
models `new Chess(fen)` (`none` = constructor throw on a bad FEN); `moveUci`
models `chess.move({from, to, promotion})` and `moveSan` models
`chess.move(san, {strict: false})`, each returning the mutated position and
the move record, with `none` standing for a throw or a falsy result. -/
structure ChessEngine (Pos : Type) where
  init : String → Option Pos
  moveUci : Pos → String × String × Option String → Option (Pos × MoveRec)
  moveSan : Pos → String → Option (Pos × MoveRec)

/-- The `{from, to, promotion}` argument built from a UCI token by slicing:
`uci.slice(0, 2)`, `uci.slice(2, 4)`, and `uci[4]` when `uci.length > 4`. -/
def uciArg (uci : String) : String × String × Option String :=
  (String.mk (uci.toList.take 2), String.mk ((uci.toList.drop 2).take 2),
    if uci.toList.length > 4 then some (String.mk ((uci.toList.drop 4).take 1)) else Option.none)

/-- Result record of `validateUciLineLegal`. -/
structure ValidationResult where
  isLegal : Bool
  appliedPlies : Nat
  deriving DecidableEq

/-- Replay loop of `validateUciLineLegal`: apply each token in order, stop at
the first failure reporting the count of successfully applied plies. -/
def replayLoop {Pos : Type} (eng : ChessEngine Pos) : Pos → List String → Nat → ValidationResult
  | _, [], applied => ⟨true, applied⟩
  | pos, uci :: rest, applied =>
    match eng.moveUci pos (uciArg uci) with
    | some (pos', _) => replayLoop eng pos' rest (applied + 1)
    | Option.none => ⟨false, applied⟩

/-- Tokens of a line under `line.split(" ").filter(Boolean)`. -/
def lineTokens (line : String) : List String :=
  (splitRuns (fun c => c = ' ') line.toList).map String.mk

/-- Specification-side predicate: every token of the list applies in sequence
from `pos` (used to state what "all required plies apply" means). -/
def appliesAll {Pos : Type} (eng : ChessEngine Pos) : Pos → List String → Bool
  | _, [] => true
  | pos, uci :: rest =>
    match eng.moveUci pos (uciArg uci) with
    | some (pos', _) => appliesAll eng pos' rest
    | Option.none => false

/-- Specification-side counter: length of the longest prefix of the tokens
that applies in sequence from `pos` (the ply count before the first illegal
move). -/
def appliedCount {Pos : Type} (eng : ChessEngine Pos) : Pos → List String → Nat
  | _, [] => 0
  | pos, uci :: rest =>
    match eng.moveUci pos (uciArg uci) with
    | some (pos', _) => appliedCount eng pos' rest + 1
    | Option.none => 0

/-- Model of `validateUciLineLegal` (bench/run.ts lines 142–169).  The result
is `none` exactly when the shape checks pass and `new Chess(fen)` throws,
since that exception is not caught in the source. -/
def validateUciLineLegal {Pos : Type} (eng : ChessEngine Pos) (fen uciLine : String)
    (needPlies : Nat) : Option ValidationResult :=
  let line := normalizeUciLine uciLine
  if line = "" then some ⟨false, 0⟩
  else
    let moves := (lineTokens line).take needPlies
    if moves.length ≠ needPlies then some ⟨false, 0⟩
    else if !moves.all isUciMove then some ⟨false, 0⟩
    else
      match eng.init fen with
      | Option.none => Option.none
      | some chess => some (replayLoop eng chess moves 0)

/-- UCI string `${mv.from}${mv.to}${promo}` built from a move record, with the
promotion letter lowercased when present. -/
def uciOfMove (mv : MoveRec) : String :=
  mv.fromSq ++ mv.toSq ++ (match mv.promotion with
    | some p => strToLower p
    | Option.none => "")

/-- Accumulating loop of `tryParseSanToUciLine`: try each SAN token in order,
skip tokens that throw, break once `need` moves are accumulated. -/
def sanLoop {Pos : Type} (eng : ChessEngine Pos) (need : Nat) :
    Pos → List String → List String → List String
  | _, [], acc => acc
  | pos, san :: rest, acc =>
    if acc.length ≥ need then acc
    else
      match eng.moveSan pos san with
      | some (pos', mv) => sanLoop eng need pos' rest (acc ++ [uciOfMove mv])
      | Option.none => sanLoop eng need pos rest acc

/-- Space-joined line (JS `array.join(" ")`). -/
def joinLine (toks : List String) : String :=
  String.mk (joinSep ' ' (toks.map String.toList))

/-- Specification-side greedy replay: apply each SAN token in order of
appearance, skip tokens the engine rejects (without aborting), and collect
the UCI renderings of every applied move, with no length cutoff. -/
def greedyReplay {Pos : Type} (eng : ChessEngine Pos) : Pos → List String → List String
  | _, [] => []
  | pos, san :: rest =>
    match eng.moveSan pos san with
    | some (pos', mv) => uciOfMove mv :: greedyReplay eng pos' rest
    | Option.none => greedyReplay eng pos rest

/-- Model of `tryParseSanToUciLine` (bench/run.ts lines 91–110).  The result
is `none` exactly when SAN candidates exist and `new Chess(fen)` throws. -/
def tryParseSanToUciLine {Pos : Type} (eng : ChessEngine Pos) (fen : String) (need : Nat)
    (text : String) : Option String :=
  let sanToks := extractSanCandidates text
  if sanToks.length = 0 then some ""
  else
    match eng.init fen with
    | Option.none => Option.none
    | some chess =>
      let uci := sanLoop eng need chess sanToks []
      some (if uci.length > 0 then joinLine (uci.take need) else "")

/-- Parse method recorded in the result. -/
inductive ParseMethod
  | uci
  | san
  | none
  deriving DecidableEq

/-- UCI-first candidate resolution step of `evalOne` in bench/run.ts (lines
278–287): join up to `need` extracted UCI tokens; only when that string is
empty, fall back to SAN parsing of the same text. -/
def resolveLine {Pos : Type} (eng : ChessEngine Pos) (fen : String) (need : Nat)
    (content : String) : Option (String × ParseMethod) :=
  let toks := extractUciTokens content
  let parsed := joinLine (toks.take need)
  if parsed.length > 0 then some (parsed, ParseMethod.uci)
  else
    match tryParseSanToUciLine eng fen need content with
    | Option.none => Option.none
    | some p2 =>
      if p2.length > 0 then some (p2, ParseMethod.san) else some ("", ParseMethod.none)

/-- Case-insensitive prefix test for the `[RESULT]` tag search. -/
def isPrefixCI (pat cs : List Char) : Bool :=
  ((cs.take pat.length).map jsToLower) == (pat.map jsToLower)

/-- Index of the first case-insensitive occurrence of a literal pattern. -/
def findCI (pat : List Char) : List Char → Option Nat
  | [] => if isPrefixCI pat [] then some 0 else Option.none
  | c :: cs =>
    if isPrefixCI pat (c :: cs) then some 0
    else (findCI pat cs).map (· + 1)

/-- Model of `text.match(/\[RESULT\]\s*([\s\S]*?)\s*\[\/RESULT\]/i)`: the
match starts at the first `[RESULT]` (case-insensitive), the lazy group ends
at the first `[/RESULT]` after it, and the greedy `\s*`s strip whitespace from
both ends of the captured group. -/
def resultTagInner (text : String) : Option String :=
  let cs := text.toList
  match findCI "[RESULT]".toList cs with
  | Option.none => Option.none
  | some i =>
    let afterOpen := cs.drop (i + 8)
    match findCI "[/RESULT]".toList afterOpen with
    | Option.none => Option.none
    | some j => some (String.mk (jsTrimList (afterOpen.take j)))

/-- Target text of `parseContent`: the `[RESULT]`-tag content when the tag
pair is present, otherwise the whole text. -/
def uciTarget (text : String) : String :=
  match resultTagInner text with
  | some inner => inner
  | Option.none => text

/-- Model of the `parseContent` closure in the `[RESULT]`-tag variant of
`evalOne` (src/unnamed/part_001 lines 283–301): prefer the tag content, emit a
UCI line only when at least `need` UCI tokens were extracted, then fall back
to SAN parsing of the same target. -/
def parseContent {Pos : Type} (eng : ChessEngine Pos) (fen : String) (need : Nat)
    (text : String) : Option (String × ParseMethod) :=
  let target := uciTarget text
  let uciToks := extractUciTokens target
  if uciToks.length ≥ need then some (joinLine (uciToks.take need), ParseMethod.uci)
  else
    match tryParseSanToUciLine eng fen need target with
    | Option.none => Option.none
    | some sanLine =>
      if sanLine ≠ "" then some (sanLine, ParseMethod.san)
      else some ("", ParseMethod.none)

/-- Model configuration for one benchmarked model (bench/types.ts
`BenchModel`; the optional `temperature` only flows into the provider request
body and is omitted). -/
structure BenchModel where
  id : String
  name : String
  maxTokens : Option Nat

/-- One puzzle record (bench/types.ts `BenchPuzzle`). -/
structure BenchPuzzle where
  id : String
  level : MateLevel
  fen : String
  lastMoveUci : Option String
  solutionUci : String

/-- Data returned by `callOpenRouter` for one completion call. -/
structure CallOut where
  content : String
  latencyMs : Nat
  promptTokens : Option Nat
  completionTokens : Option Nat
  totalTokens : Option Nat

/-- Result record of one evaluation (bench/types.ts `ModelPuzzleResult`). -/
structure ModelPuzzleResult where
  move : String
  isCorrect : Bool
  isLegal : Option Bool
  parseMethod : ParseMethod
  rawOutput : String
  latencyMs : Nat
  promptTokens : Option Nat
  completionTokens : Option Nat
  totalTokens : Option Nat

/-- Retry budget `Math.min(Math.max(configuredMax * 4, 256), 1024)` from
bench/run.ts line 294. -/
def retryMax (configuredMax : Nat) : Nat :=
  min (max (configuredMax * 4) 256) 1024

/-- Final validation-and-packaging step of `evalOne` (bench/run.ts lines
312–328), shared by the first attempt and the retry. -/
def finalizeResult {Pos : Type} (eng : ChessEngine Pos) (puzzle : BenchPuzzle) (need : Nat)
    (parsed : String) (method : ParseMethod) (resp : CallOut) : Option ModelPuzzleResult :=
  let legality? :=
    if parsed.length > 0 then validateUciLineLegal eng puzzle.fen parsed need
    else some (⟨false, 0⟩ : ValidationResult)
  match legality? with
  | Option.none => Option.none
  | some legality =>
    some {
      move := parsed
      isCorrect := parsed.length > 0 && legality.isLegal && scoreMove puzzle.solutionUci parsed
      isLegal := if parsed.length > 0 then some legality.isLegal else Option.none
      parseMethod := method
      rawOutput := resp.content
      latencyMs := resp.latencyMs
      promptTokens := resp.promptTokens
      completionTokens := resp.completionTokens
      totalTokens := resp.totalTokens }

/-- Model of `evalOne` (bench/run.ts lines 273–329).  The completion
collaborator is abstracted as `api`, mapping the `max_tokens` budget sent by
`callOpenRouter` (`maxTokensOverride ?? model.maxTokens ?? 128`) to a
response; the second component collects the budgets of the calls actually
made, in order.  A `none` first component models an uncaught exception from
`new Chess(fen)`. -/
def evalOne {Pos : Type} (eng : ChessEngine Pos) (model : BenchModel) (puzzle : BenchPuzzle)
    (api : Nat → CallOut) : Option ModelPuzzleResult × List Nat :=
  let firstBudget := model.maxTokens.getD 128
  let first := api firstBudget
  let need := requiredPlies puzzle.level
  match resolveLine eng puzzle.fen need first.content with
  | Option.none => (Option.none, [firstBudget])
  | some (parsed, method) =>
    let configuredMax := model.maxTokens.getD 128
    let hitLimit :=
      match first.completionTokens with
      | some n => decide (configuredMax ≤ n)
      | Option.none => false
    if parsed.length = 0 && hitLimit then
      let retry := api (retryMax configuredMax)
      match resolveLine eng puzzle.fen need retry.content with
      | Option.none => (Option.none, [firstBudget, retryMax configuredMax])
      | some (parsed2, method2) =>
        (finalizeResult eng puzzle need parsed2 method2 retry,
          [firstBudget, retryMax configuredMax])
    else
      (finalizeResult eng puzzle need parsed method first, [firstBudget])

/-- Engine whose position constructor always fails; used only to evaluate the
fallback behaviour on concrete inputs. -/
def failEngine : ChessEngine Unit where
  init := fun _ => Option.none
  moveUci := fun _ _ => Option.none
  moveSan := fun _ _ => Option.none

/-- Toy instantiation of the rules-engine collaborator: every position is
`Unit`, every UCI move applies, SAN parsing always fails.  Used only to
evaluate the models on concrete inputs. -/
def unitEngine : ChessEngine Unit where
  init := fun _ => some ()
  moveUci := fun _ arg => some ((), ⟨arg.1, arg.2.1, arg.2.2, arg.1 ++ arg.2.1⟩)
  moveSan := fun _ _ => Option.none

/-- Toy engine in which only the SAN move `d5` applies (as `d4d5`).  Used only
to evaluate the SAN fallback on concrete inputs. -/
def sanPawnEngine : ChessEngine Unit where
  init := fun _ => some ()
  moveUci := fun _ _ => Option.none
  moveSan := fun _ san =>
    if san = "d5" then some ((), ⟨"d4", "d5", Option.none, "d5"⟩) else Option.none

/-- Model of `uciToSan` (bench/utils.ts lines 86–97): best-effort conversion
to SAN, returning the UCI string unchanged when the position constructor or
the move throws or returns a falsy value. -/
def uciToSan {Pos : Type} (eng : ChessEngine Pos) (fen uci : String) : String :=
  match eng.init fen with
  | Option.none => uci
  | some chess =>
    match eng.moveUci chess (uciArg uci) with
    | some (_, mv) => mv.san
    | Option.none => uci

/-- Conversion loop of `uciLineToSan`: convert each move in sequence, abort
with `none` at the first failure. -/
def sanLineLoop {Pos : Type} (eng : ChessEngine Pos) : Pos → List String → Option (List String)
  | _, [] => some []
  | pos, uci :: rest =>
    match eng.moveUci pos (uciArg uci) with
    | some (pos', mv) => (sanLineLoop eng pos' rest).map (mv.san :: ·)
    | Option.none => Option.none

/-- JS `s.trim()` on a string. -/
def jsTrimStr (s : String) : String :=
  String.mk (jsTrimList s.toList)

/-- Model of `uciLineToSan` (bench/utils.ts lines 102–123): empty output for
whitespace-only input, otherwise the SAN renderings joined by spaces, falling
back to the original line when the constructor or any move fails. -/
def uciLineToSan {Pos : Type} (eng : ChessEngine Pos) (fen uciLine : String) : String :=
  if jsTrimStr uciLine = "" then ""
  else
    let moves := (splitRuns jsWhitespace uciLine.toList).map String.mk
    match eng.init fen with
    | Option.none => uciLine
    | some chess =>
      match sanLineLoop eng chess moves with
      | some sanMoves => joinLine sanMoves
      | Option.none => uciLine

/-- Usage metadata of the provider response. -/
structure OpenRouterUsage where
  prompt_tokens : Option Nat
  completion_tokens : Option Nat
  total_tokens : Option Nat

/-- Structured content part `{ text?, type? }` of a provider response. -/
structure OpenRouterContentPart where
  text : Option String
  type : Option String

/-- `message.content`: either a plain string or an array of parts, each a
string or a structured part. -/
inductive ORContent
  | str (s : String)
  | arr (parts : List (Sum String OpenRouterContentPart))

/-- Entry of `message.reasoning_details`. -/
structure ORReasoningDetail where
  text : Option String

/-- `choices[0].message` of the provider response. -/
structure ORMessage where
  content : Option ORContent
  reasoning : Option String
  reasoning_details : Option (List ORReasoningDetail)

/-- One entry of `choices`. -/
structure OpenRouterChoice where
  message : Option ORMessage
  text : Option String

/-- The provider response envelope. -/
structure OpenRouterResponse where
  choices : Option (List OpenRouterChoice)
  usage : Option OpenRouterUsage

/-- `json.choices?.[0]`. -/
def orChoice (json : OpenRouterResponse) : Option OpenRouterChoice :=
  json.choices.bind List.head?

/-- `choice?.message`. -/
def orMessage (json : OpenRouterResponse) : Option ORMessage :=
  (orChoice json).bind OpenRouterChoice.message

/-- Mapping of one content part to its text: a string part is kept, an object
part contributes its `text` field when it is a string, anything else maps to
the empty string. -/
def partText : Sum String OpenRouterContentPart → String
  | .inl s => s
  | .inr p =>
    match p.text with
    | some t => t
    | Option.none => ""

/-- Strategy 1 of `extractOpenRouterText`: plain string `message.content`
with a non-blank trim. -/
def orStratContentString (json : OpenRouterResponse) : Option String :=
  match (orMessage json).bind ORMessage.content with
  | some (.str c) => if jsTrimStr c ≠ "" then some c else Option.none
  | _ => Option.none

/-- Strategy 2: array-of-parts `message.content`, keeping non-empty part
texts and joining them with no separator. -/
def orStratContentParts (json : OpenRouterResponse) : Option String :=
  match (orMessage json).bind ORMessage.content with
  | some (.arr l) =>
    let parts := (l.map partText).filter (fun s => s ≠ "")
    if parts.length > 0 then some (String.join parts) else Option.none
  | _ => Option.none

/-- Strategy 3: `message.reasoning` with a non-blank trim. -/
def orStratReasoning (json : OpenRouterResponse) : Option String :=
  match (orMessage json).bind ORMessage.reasoning with
  | some r => if jsTrimStr r ≠ "" then some r else Option.none
  | Option.none => Option.none

/-- Strategy 4: `message.reasoning_details`, keeping non-empty entry texts
and joining them with newlines. -/
def orStratReasoningDetails (json : OpenRouterResponse) : Option String :=
  match (orMessage json).bind ORMessage.reasoning_details with
  | some l =>
    let parts := (l.map fun d => d.text.getD "").filter (fun s => s ≠ "")
    if parts.length > 0 then some (String.intercalate "\n" parts) else Option.none
  | Option.none => Option.none

/-- Strategy 5: completion-style `choice.text` with a non-blank trim. -/
def orStratChoiceText (json : OpenRouterResponse) : Option String :=
  match (orChoice json).bind OpenRouterChoice.text with
  | some t => if jsTrimStr t ≠ "" then some t else Option.none
  | Option.none => Option.none

/-- Fallback payload `safeJsonStringify(choice ?? json ?? "")` of
`extractOpenRouterText`.  The two `stringify` parameters abstract
`safeJsonStringify` (bench/run.ts lines 171–177) applied to the first choice
or to the whole response; the JSON serializer itself is a JS builtin. -/
def orFallback (stringifyChoice : OpenRouterChoice → String)
    (stringifyResp : OpenRouterResponse → String) (json : OpenRouterResponse) : String :=
  match orChoice json with
  | some ch => stringifyChoice ch
  | Option.none => stringifyResp json

/-- Model of `extractOpenRouterText` (bench/run.ts lines 179–218): the
sequence of early returns of the source, one per extraction strategy, ending
in the stringified payload. -/
def extractOpenRouterText (stringifyChoice : OpenRouterChoice → String)
    (stringifyResp : OpenRouterResponse → String) (json : OpenRouterResponse) : String :=
  match orStratContentString json with
  | some c => c
  | Option.none =>
    match orStratContentParts json with
    | some c => c
    | Option.none =>
      match orStratReasoning json with
      | some c => c
      | Option.none =>
        match orStratReasoningDetails json with
        | some c => c
        | Option.none =>
          match orStratChoiceText json with
          | some c => c
          | Option.none => orFallback stringifyChoice stringifyResp json

/-- Modelled from the spec (§9, provider response-shape ambiguity): one
prioritized list of extraction strategies tried in order against the
normalized response envelope, with the debug-safe stringified payload as last
resort. -/
def orStrategyCascade (stringifyChoice : OpenRouterChoice → String)
    (stringifyResp : OpenRouterResponse → String) (json : OpenRouterResponse) : String :=
  (([orStratContentString json, orStratContentParts json, orStratReasoning json,
      orStratReasoningDetails json, orStratChoiceText json].findSome? id).getD
    (orFallback stringifyChoice stringifyResp json))


/-! Lemmas about the first-seen de-duplication. -/

theorem dedupFirstAux_mem (l : List String) : ∀ (seen : List String) (x : String),
    x ∈ dedupFirstAux l seen ↔ x ∈ l ∧ x ∉ seen := by
  induction l with
  | nil => intro seen x; simp [dedupFirstAux]
  | cons a l ih =>
    intro seen x
    by_cases ha : a ∈ seen
    · rw [dedupFirstAux, if_pos ha, ih]
      constructor
      · rintro ⟨hx, hs⟩; exact ⟨List.mem_cons_of_mem a hx, hs⟩
      · rintro ⟨hx, hs⟩
        rcases List.mem_cons.mp hx with h | h
        · exact absurd (h ▸ ha) hs
        · exact ⟨h, hs⟩
    · rw [dedupFirstAux, if_neg ha]
      constructor
      · intro hx
        rcases List.mem_cons.mp hx with h | h
        · exact ⟨h ▸ List.mem_cons_self a l, h ▸ ha⟩
        · obtain ⟨h1, h2⟩ := (ih (a :: seen) x).mp h
          exact ⟨List.mem_cons_of_mem a h1, fun hs => h2 (List.mem_cons_of_mem a hs)⟩
      · rintro ⟨hx, hs⟩
        by_cases hxa : x = a
        · exact hxa ▸ List.mem_cons_self a _
        · rcases List.mem_cons.mp hx with h | h
          · exact absurd h hxa
          · exact List.mem_cons_of_mem a ((ih (a :: seen) x).mpr
              ⟨h, fun hm => (List.mem_cons.mp hm).elim hxa hs⟩)

theorem dedupFirstAux_nodup (l : List String) : ∀ seen : List String,
    (dedupFirstAux l seen).Nodup := by
  induction l with
  | nil => intro seen; simp [dedupFirstAux]
  | cons a l ih =>
    intro seen
    by_cases ha : a ∈ seen
    · rw [dedupFirstAux, if_pos ha]; exact ih seen
    · rw [dedupFirstAux, if_neg ha]
      refine List.nodup_cons.mpr ⟨fun hmem => ?_, ih (a :: seen)⟩
      exact ((dedupFirstAux_mem l (a :: seen) a).mp hmem).2 (List.mem_cons_self a seen)

theorem dedupFirstAux_pairwise (l : List String) : ∀ seen : List String,
    (dedupFirstAux l seen).Pairwise fun a b => l.indexOf a < l.indexOf b := by
  induction l with
  | nil => intro seen; simp [dedupFirstAux]
  | cons a l ih =>
    intro seen
    by_cases ha : a ∈ seen
    · rw [dedupFirstAux, if_pos ha]
      refine (ih seen).imp_of_mem fun {x y} hx hy hlt => ?_
      have hxs := ((dedupFirstAux_mem l seen x).mp hx).2
      have hys := ((dedupFirstAux_mem l seen y).mp hy).2
      have hxa : x ≠ a := fun h => hxs (h ▸ ha)
      have hya : y ≠ a := fun h => hys (h ▸ ha)
      rw [List.indexOf_cons_ne _ (Ne.symm hxa), List.indexOf_cons_ne _ (Ne.symm hya)]
      exact Nat.succ_lt_succ hlt
    · rw [dedupFirstAux, if_neg ha]
      refine List.pairwise_cons.mpr ⟨fun b hb => ?_, ?_⟩
      · have hbs := ((dedupFirstAux_mem l (a :: seen) b).mp hb).2
        have hba : b ≠ a := fun h => hbs (h ▸ List.mem_cons_self a seen)
        rw [List.indexOf_cons_self, List.indexOf_cons_ne _ (Ne.symm hba)]
        exact Nat.succ_pos _
      · refine (ih (a :: seen)).imp_of_mem fun {x y} hx hy hlt => ?_
        have hxs := ((dedupFirstAux_mem l (a :: seen) x).mp hx).2
        have hys := ((dedupFirstAux_mem l (a :: seen) y).mp hy).2
        have hxa : x ≠ a := fun h => hxs (h ▸ List.mem_cons_self a seen)
        have hya : y ≠ a := fun h => hys (h ▸ List.mem_cons_self a seen)
        rw [List.indexOf_cons_ne _ (Ne.symm hxa), List.indexOf_cons_ne _ (Ne.symm hya)]
        exact Nat.succ_lt_succ hlt

theorem dedupFirst_mem (l : List String) (x : String) : x ∈ dedupFirst l ↔ x ∈ l := by
  rw [dedupFirst, dedupFirstAux_mem]
  simp

/-! Claim theorems. -/

/-- C6: the required ply count is a pure function of the puzzle level:
`requiredPlies mate1 = 1`, `requiredPlies mate2 = 3`, `requiredPlies mate3 =
5`.  Being a function of `MateLevel` alone, no per-puzzle input occurs in its
signature, so nothing can override these values. -/
theorem c6_requiredPlies_pure :
    requiredPlies MateLevel.mate1 = 1 ∧ requiredPlies MateLevel.mate2 = 3 ∧
      requiredPlies MateLevel.mate3 = 5 :=
  ⟨rfl, rfl, rfl⟩

/-- C7: for every input text, `extractUciTokens` and `extractSanCandidates`
each return a duplicate-free list containing exactly the tokens of the
ordered regex match stream, and distinct tokens are ordered by the index of
their first occurrence in that stream (first-seen order). -/
theorem c7_extraction_dedup_order (text : String) :
    (extractUciTokens text).Nodup ∧
    (∀ tok, tok ∈ extractUciTokens text ↔ tok ∈ uciMatchStream text) ∧
    ((extractUciTokens text).Pairwise fun a b =>
      (uciMatchStream text).indexOf a < (uciMatchStream text).indexOf b) ∧
    (extractSanCandidates text).Nodup ∧
    (∀ tok, tok ∈ extractSanCandidates text ↔ tok ∈ sanMatchStream text) ∧
    ((extractSanCandidates text).Pairwise fun a b =>
      (sanMatchStream text).indexOf a < (sanMatchStream text).indexOf b) :=
  ⟨dedupFirstAux_nodup _ _, fun tok => dedupFirst_mem _ tok, dedupFirstAux_pairwise _ _,
    dedupFirstAux_nodup _ _, fun tok => dedupFirst_mem _ tok, dedupFirstAux_pairwise _ _⟩

/-- Witness for C7 at a concrete noisy text with a repeated token. -/
theorem c7_witness :
    (extractUciTokens "e2e4 e7e5 e2e4").Nodup ∧
      ("e7e5" ∈ extractUciTokens "e2e4 e7e5 e2e4" ↔
        "e7e5" ∈ uciMatchStream "e2e4 e7e5 e2e4") :=
  ⟨(c7_extraction_dedup_order "e2e4 e7e5 e2e4").1,
    (c7_extraction_dedup_order "e2e4 e7e5 e2e4").2.1 "e7e5"⟩

/-- C9: `extractOpenRouterText` is a total function equal to the prioritized
strategy cascade (string content, array-of-parts content, reasoning,
reasoning_details, choice-level text, tried in that order), and it returns
the stringified payload of the first choice (or of the whole response when no
choice exists) exactly when every strategy yields nothing; when the first
strategy succeeds its value is returned as is. -/
theorem c9_extractOpenRouterText_strategies (sc : OpenRouterChoice → String)
    (sr : OpenRouterResponse → String) (json : OpenRouterResponse) :
    extractOpenRouterText sc sr json = orStrategyCascade sc sr json ∧
    (orStratContentString json = Option.none → orStratContentParts json = Option.none →
      orStratReasoning json = Option.none → orStratReasoningDetails json = Option.none →
      orStratChoiceText json = Option.none →
      extractOpenRouterText sc sr json = orFallback sc sr json) ∧
    (∀ c, orStratContentString json = some c → extractOpenRouterText sc sr json = c) := by
  refine ⟨?_, ?_, ?_⟩
  · unfold extractOpenRouterText orStrategyCascade
    cases orStratContentString json <;> cases orStratContentParts json <;>
      cases orStratReasoning json <;> cases orStratReasoningDetails json <;>
      cases orStratChoiceText json <;> simp [List.findSome?]
  · intro h1 h2 h3 h4 h5
    unfold extractOpenRouterText
    rw [h1, h2, h3, h4, h5]
  · intro c h
    unfold extractOpenRouterText
    rw [h]

/-- Witness for C9 at a concrete response with no extractable content. -/
theorem c9_witness :
    extractOpenRouterText (fun _ => "choicePayload") (fun _ => "respPayload")
        ⟨Option.none, Option.none⟩ =
      orFallback (fun _ => "choicePayload") (fun _ => "respPayload") ⟨Option.none, Option.none⟩ :=
  (c9_extractOpenRouterText_strategies _ _ _).2.1 rfl rfl rfl rfl rfl

/-- C8: `uciToSan` is total and falls back to identity: when the position
constructor fails or the move fails to apply it returns the original UCI
string unchanged, and only on a successful conversion does it return the SAN
rendering; `uciLineToSan` returns the original line unchanged whenever the
constructor fails or the sequential conversion of the moves in the line fails
(where one failing move makes the whole conversion fail). -/
theorem c8_notation_fallback_identity {Pos : Type} (eng : ChessEngine Pos)
    (fen uci uciLine : String) :
    (eng.init fen = Option.none → uciToSan eng fen uci = uci) ∧
    (∀ pos, eng.init fen = some pos → eng.moveUci pos (uciArg uci) = Option.none →
      uciToSan eng fen uci = uci) ∧
    (∀ pos pos' mv, eng.init fen = some pos → eng.moveUci pos (uciArg uci) = some (pos', mv) →
      uciToSan eng fen uci = mv.san) ∧
    (∀ pos mv rest, eng.moveUci pos (uciArg mv) = Option.none →
      sanLineLoop eng pos (mv :: rest) = Option.none) ∧
    (jsTrimStr uciLine ≠ "" → eng.init fen = Option.none → uciLineToSan eng fen uciLine = uciLine) ∧
    (∀ pos, jsTrimStr uciLine ≠ "" → eng.init fen = some pos →
      sanLineLoop eng pos ((splitRuns jsWhitespace uciLine.toList).map String.mk) = Option.none →
      uciLineToSan eng fen uciLine = uciLine) := by
  refine ⟨?_, ?_, ?_, ?_, ?_, ?_⟩
  · intro h; simp only [uciToSan, h]
  · intro pos h1 h2; simp only [uciToSan, h1, h2]
  · intro pos pos' mv h1 h2; simp only [uciToSan, h1, h2]
  · intro pos mv rest h; simp only [sanLineLoop, h]
  · intro hne h; simp only [uciLineToSan, if_neg hne, h]
  · intro pos hne h1 h2; simp only [uciLineToSan, if_neg hne, h1, h2]

/-- Witness for C8 at a concrete failing engine and malformed move. -/
theorem c8_witness :
    uciToSan failEngine "not a fen" "zz99" = "zz99" ∧
      uciLineToSan failEngine "not a fen" "e2e4 zz" = "e2e4 zz" :=
  ⟨(c8_notation_fallback_identity failEngine "not a fen" "zz99" "e2e4 zz").1 rfl,
    (c8_notation_fallback_identity failEngine "not a fen" "zz99" "e2e4 zz").2.2.2.2.1
      (by decide) rfl⟩

/-! Shape lemmas for the UCI extractor. -/

theorem jsToLower_fileCI (c : Char) (h : isFileCI c = true) :
    isFileCI (jsToLower c) = true ∧ jsWhitespace (jsToLower c) = false := by
  have hall : ∀ x ∈ ['a', 'b', 'c', 'd', 'e', 'f', 'g', 'h',
      'A', 'B', 'C', 'D', 'E', 'F', 'G', 'H'],
      isFileCI (jsToLower x) = true ∧ jsWhitespace (jsToLower x) = false := by decide
  apply hall
  simp only [isFileCI, Bool.or_eq_true, decide_eq_true_eq] at h
  simp only [List.mem_cons, List.not_mem_nil, or_false]
  tauto

theorem jsToLower_rank (c : Char) (h : isRankCh c = true) :
    isRankCh (jsToLower c) = true ∧ jsWhitespace (jsToLower c) = false := by
  have hall : ∀ x ∈ ['1', '2', '3', '4', '5', '6', '7', '8'],
      isRankCh (jsToLower x) = true ∧ jsWhitespace (jsToLower x) = false := by decide
  apply hall
  simp only [isRankCh, Bool.or_eq_true, decide_eq_true_eq] at h
  simp only [List.mem_cons, List.not_mem_nil, or_false]
  tauto

theorem jsToLower_promo (c : Char) (h : isPromoCI c = true) :
    isPromoCI (jsToLower c) = true ∧ jsWhitespace (jsToLower c) = false := by
  have hall : ∀ x ∈ ['q', 'r', 'b', 'n', 'Q', 'R', 'B', 'N'],
      isPromoCI (jsToLower x) = true ∧ jsWhitespace (jsToLower x) = false := by decide
  apply hall
  simp only [isPromoCI, Bool.or_eq_true, decide_eq_true_eq] at h
  simp only [List.mem_cons, List.not_mem_nil, or_false]
  tauto

theorem dropWhile_eq_self_of_all (p : Char → Bool) (cs : List Char)
    (h : ∀ c ∈ cs, p c = false) : cs.dropWhile p = cs := by
  cases cs with
  | nil => rfl
  | cons c cs' =>
    exact List.dropWhile_cons_of_neg (by simp [h c (List.mem_cons_self c cs')])

theorem jsTrimList_eq_self (cs : List Char) (h : ∀ c ∈ cs, jsWhitespace c = false) :
    jsTrimList cs = cs := by
  unfold jsTrimList
  rw [dropWhile_eq_self_of_all _ _ h,
    dropWhile_eq_self_of_all _ _ (fun c hc => h c (List.mem_reverse.mp hc)),
    List.reverse_reverse]

theorem matchSq_some (cs : List Char) (f r : Char) (rest : List Char)
    (h : matchSq cs = some (f, r, rest)) :
    isFileCI f = true ∧ isRankCh r = true := by
  cases cs with
  | nil => exact absurd h (by simp [matchSq])
  | cons c1 cs1 =>
    cases cs1 with
    | nil => exact absurd h (by simp [matchSq])
    | cons c2 cs2 =>
      rw [matchSq] at h
      split at h
      · rename_i hcls
        simp only [Option.some.injEq, Prod.mk.injEq] at h
        obtain ⟨h1, h2, -⟩ := h
        simp only [Bool.and_eq_true] at hcls
        exact ⟨h1 ▸ hcls.1, h2 ▸ hcls.2⟩
      · exact absurd h (by simp)

theorem uciTrySq_some (f1 r1 : Char) (s : List Char) (a b c d : Char) (rest : List Char)
    (h : uciTrySq f1 r1 s = some (a, b, c, d, rest)) :
    a = f1 ∧ b = r1 ∧ isFileCI c = true ∧ isRankCh d = true := by
  unfold uciTrySq at h
  cases hm : matchSq (s.dropWhile jsWhitespace) with
  | none => rw [hm] at h; cases h
  | some q =>
    obtain ⟨f2, r2, rest2⟩ := q
    rw [hm] at h
    simp only [Option.some.injEq, Prod.mk.injEq] at h
    obtain ⟨h1, h2, h3, h4, -⟩ := h
    obtain ⟨hc, hd⟩ := matchSq_some _ _ _ _ hm
    exact ⟨h1.symm, h2.symm, h3 ▸ hc, h4 ▸ hd⟩

theorem uciFront_some (cs : List Char) (f1 r1 f2 r2 : Char) (rest : List Char)
    (h : uciFront cs = some (f1, r1, f2, r2, rest)) :
    isFileCI f1 = true ∧ isRankCh r1 = true ∧ isFileCI f2 = true ∧ isRankCh r2 = true := by
  unfold uciFront at h
  cases hm : matchSq cs with
  | none => rw [hm] at h; cases h
  | some q =>
    obtain ⟨a, b, s1⟩ := q
    rw [hm] at h
    obtain ⟨ha, hb⟩ := matchSq_some _ _ _ _ hm
    simp only at h
    have finish : ∀ s, uciTrySq a b s = some (f1, r1, f2, r2, rest) →
        isFileCI f1 = true ∧ isRankCh r1 = true ∧ isFileCI f2 = true ∧ isRankCh r2 = true := by
      intro s hs
      obtain ⟨h1, h2, h3, h4⟩ := uciTrySq_some _ _ _ _ _ _ _ _ hs
      exact ⟨h1 ▸ ha, h2 ▸ hb, h3, h4⟩
    cases hd : s1.dropWhile jsWhitespace with
    | nil => rw [hd] at h; cases h
    | cons c s3 =>
      rw [hd] at h
      simp only at h
      by_cases hsep : (c = '-' || c = ':') = true
      · rw [if_pos hsep] at h
        rcases (Option.orElse_eq_some' _ _ _).mp h with h1 | ⟨-, h1⟩ <;> exact finish _ h1
      · rw [if_neg hsep] at h
        exact finish _ h

theorem uciPromoBody_some (s : List Char) (op : Option Char) (last : Char) (rest : List Char)
    (h : uciPromoBody s = some (op, last, rest)) :
    ∃ p, op = some p ∧ isPromoCI p = true := by
  obtain ⟨ws2, hmem, hb⟩ := List.exists_of_findSome?_eq_some h
  cases hcs : ws2.2 with
  | nil => rw [hcs] at hb; cases hb
  | cons c rest2 =>
    rw [hcs] at hb
    simp only at hb
    by_cases hcond : (isPromoCI c && bdry (some c) rest2.head?) = true
    · rw [if_pos hcond] at hb
      simp only [Option.some.injEq, Prod.mk.injEq] at hb
      simp only [Bool.and_eq_true] at hcond
      exact ⟨c, hb.1.symm, hcond.1⟩
    · rw [if_neg hcond] at hb
      cases hb

theorem uciTail_some_promo (prev : Char) (cs : List Char) (op : Option Char) (last : Char)
    (rest : List Char) (h : uciTail prev cs = some (op, last, rest)) :
    op = Option.none ∨ ∃ p, op = some p ∧ isPromoCI p = true := by
  obtain ⟨ws, hmem, hb⟩ := List.exists_of_findSome?_eq_some h
  obtain ⟨o, suf⟩ := ws
  simp only at hb
  have hv : ∀ s, uciPromoBody s = some (op, last, rest) →
      op = Option.none ∨ ∃ p, op = some p ∧ isPromoCI p = true := fun s hs =>
    Or.inr (uciPromoBody_some _ _ _ _ hs)
  rcases (Option.orElse_eq_some' _ _ _).mp hb with hb1 | ⟨-, hb2⟩
  · split at hb1
    · rcases (Option.orElse_eq_some' _ _ _).mp hb1 with hb3 | ⟨-, hb3⟩ <;> exact hv _ hb3
    · exact hv _ hb1
  · split at hb2
    · simp only [Option.some.injEq, Prod.mk.injEq] at hb2
      exact Or.inl hb2.1.symm
    · cases hb2

theorem isUciMove_of_classes4 (a b c d : Char)
    (ha : isFileCI a = true) (hb : isRankCh b = true) (hc : isFileCI c = true)
    (hd : isRankCh d = true) (haw : jsWhitespace a = false) (hbw : jsWhitespace b = false)
    (hcw : jsWhitespace c = false) (hdw : jsWhitespace d = false) :
    isUciMove (String.mk [a, b, c, d]) = true := by
  unfold isUciMove
  have htl : (String.mk [a, b, c, d]).toList = [a, b, c, d] := rfl
  rw [htl, jsTrimList_eq_self]
  · simp [ha, hb, hc, hd]
  · intro x hx
    simp only [List.mem_cons, List.not_mem_nil, or_false] at hx
    rcases hx with rfl | rfl | rfl | rfl <;> assumption

theorem isUciMove_of_classes5 (a b c d e : Char)
    (ha : isFileCI a = true) (hb : isRankCh b = true) (hc : isFileCI c = true)
    (hd : isRankCh d = true) (he : isPromoCI e = true)
    (haw : jsWhitespace a = false) (hbw : jsWhitespace b = false)
    (hcw : jsWhitespace c = false) (hdw : jsWhitespace d = false)
    (hew : jsWhitespace e = false) :
    isUciMove (String.mk [a, b, c, d, e]) = true := by
  unfold isUciMove
  have htl : (String.mk [a, b, c, d, e]).toList = [a, b, c, d, e] := rfl
  rw [htl, jsTrimList_eq_self]
  · simp [ha, hb, hc, hd, he]
  · intro x hx
    simp only [List.mem_cons, List.not_mem_nil, or_false] at hx
    rcases hx with rfl | rfl | rfl | rfl | rfl <;> assumption

theorem matchUciAt_isUciMove (cs : List Char) (tok : String) (last : Char) (rest : List Char)
    (h : matchUciAt cs = some (tok, last, rest)) :
    isUciMove tok = true ∧ (tok.length = 4 ∨ tok.length = 5) := by
  unfold matchUciAt at h
  cases hf : uciFront cs with
  | none => rw [hf] at h; cases h
  | some q =>
    obtain ⟨f1, r1, f2, r2, rest0⟩ := q
    rw [hf] at h
    simp only at h
    cases ht : uciTail r2 rest0 with
    | none => rw [ht] at h; cases h
    | some pr =>
      obtain ⟨op, last1, rest1⟩ := pr
      rw [ht] at h
      obtain ⟨hf1, hr1, hf2, hr2⟩ := uciFront_some _ _ _ _ _ _ hf
      obtain ⟨hf1l, hf1w⟩ := jsToLower_fileCI _ hf1
      obtain ⟨hr1l, hr1w⟩ := jsToLower_rank _ hr1
      obtain ⟨hf2l, hf2w⟩ := jsToLower_fileCI _ hf2
      obtain ⟨hr2l, hr2w⟩ := jsToLower_rank _ hr2
      rcases uciTail_some_promo _ _ _ _ _ ht with hop | ⟨p, hop, hp⟩
      · subst hop
        simp only [Option.map_some'] at h
        simp only [Option.some.injEq, Prod.mk.injEq] at h
        obtain ⟨htok, -, -⟩ := h
        subst htok
        simp only [List.append_nil]
        exact ⟨isUciMove_of_classes4 _ _ _ _ hf1l hr1l hf2l hr2l hf1w hr1w hf2w hr2w,
          Or.inl rfl⟩
      · subst hop
        obtain ⟨hpl, hpw⟩ := jsToLower_promo _ hp
        simp only [Option.map_some'] at h
        simp only [Option.some.injEq, Prod.mk.injEq] at h
        obtain ⟨htok, -, -⟩ := h
        subst htok
        exact ⟨isUciMove_of_classes5 _ _ _ _ _ hf1l hr1l hf2l hr2l hpl
          hf1w hr1w hf2w hr2w hpw, Or.inr rfl⟩

theorem uciScanAux_isUciMove (fuel : Nat) : ∀ (prev : Option Char) (cs : List Char)
    (tok : String), tok ∈ uciScanAux fuel prev cs →
    isUciMove tok = true ∧ (tok.length = 4 ∨ tok.length = 5) := by
  induction fuel with
  | zero => intro prev cs tok h; simp [uciScanAux] at h
  | succ n ih =>
    intro prev cs tok h
    cases cs with
    | nil => simp [uciScanAux] at h
    | cons c cs' =>
      rw [uciScanAux] at h
      cases hm : (if bdry prev (some c) = true then matchUciAt (c :: cs') else Option.none) with
      | none =>
        rw [hm] at h
        simp only at h
        exact ih _ _ _ h
      | some v =>
        obtain ⟨tok', last, rest⟩ := v
        rw [hm] at h
        simp only at h
        rcases List.mem_cons.mp h with rfl | h'
        · have hmm : matchUciAt (c :: cs') = some (tok, last, rest) := by
            by_cases hbd : bdry prev (some c) = true
            · rwa [if_pos hbd] at hm
            · rw [if_neg hbd] at hm; cases hm
          exact matchUciAt_isUciMove _ _ _ _ hmm
        · exact ih _ _ _ h'

/-- C10: every token produced by `extractUciTokens` has length 4 or 5 and
satisfies the validator's `isUciMove` shape predicate
`^[a-h][1-8][a-h][1-8][qrbn]?$`, so a line assembled by space-joining
extracted UCI tokens can never fail the validator's per-token shape check. -/
theorem c10_extracted_tokens_satisfy_isUciMove (text tok : String)
    (h : tok ∈ extractUciTokens text) :
    isUciMove tok = true ∧ (tok.length = 4 ∨ tok.length = 5) :=
  uciScanAux_isUciMove _ _ _ _ ((dedupFirst_mem _ _).mp h)

/-- Witness for C10 on a concrete extraction from noisy text. -/
theorem c10_witness :
    isUciMove "a7a8q" = true ∧ ("a7a8q".length = 4 ∨ "a7a8q".length = 5) :=
  c10_extracted_tokens_satisfy_isUciMove "push a7a8=Q mate" "a7a8q" (by decide)

/-! Lemmas characterizing the validator. -/

theorem replayLoop_eq {Pos : Type} (eng : ChessEngine Pos) : ∀ (moves : List String)
    (pos : Pos) (n : Nat),
    replayLoop eng pos moves n = ⟨appliesAll eng pos moves, n + appliedCount eng pos moves⟩ := by
  intro moves
  induction moves with
  | nil => intro pos n; simp [replayLoop, appliesAll, appliedCount]
  | cons u rest ih =>
    intro pos n
    cases hm : eng.moveUci pos (uciArg u) with
    | none => simp [replayLoop, appliesAll, appliedCount, hm]
    | some pr =>
      obtain ⟨pos', mv⟩ := pr
      simp only [replayLoop, appliesAll, appliedCount, hm, ih, ValidationResult.mk.injEq]
      exact ⟨trivial, by omega⟩

theorem appliedCount_of_appliesAll {Pos : Type} (eng : ChessEngine Pos) :
    ∀ (moves : List String) (pos : Pos), appliesAll eng pos moves = true →
    appliedCount eng pos moves = moves.length := by
  intro moves
  induction moves with
  | nil => intro pos _; rfl
  | cons u rest ih =>
    intro pos h
    cases hm : eng.moveUci pos (uciArg u) with
    | none => simp [appliesAll, hm] at h
    | some pr =>
      obtain ⟨pos', mv⟩ := pr
      simp only [appliesAll, hm] at h
      simp only [appliedCount, hm, List.length_cons]
      rw [ih pos' h]

theorem lineTokens_empty : (lineTokens "").length = 0 := rfl

theorem validate_empty {Pos : Type} (eng : ChessEngine Pos) (fen uciLine : String)
    (needPlies : Nat) (he : normalizeUciLine uciLine = "") :
    validateUciLineLegal eng fen uciLine needPlies = some ⟨false, 0⟩ := by
  simp only [validateUciLineLegal]
  rw [if_pos he]

theorem validate_short {Pos : Type} (eng : ChessEngine Pos) (fen uciLine : String)
    (needPlies : Nat) (hlt : (lineTokens (normalizeUciLine uciLine)).length < needPlies) :
    validateUciLineLegal eng fen uciLine needPlies = some ⟨false, 0⟩ := by
  simp only [validateUciLineLegal]
  by_cases he : normalizeUciLine uciLine = ""
  · rw [if_pos he]
  · rw [if_neg he]
    have hmlen : ((lineTokens (normalizeUciLine uciLine)).take needPlies).length ≠ needPlies := by
      rw [List.length_take]; omega
    rw [if_pos hmlen]

theorem normalize_ne_empty_of_tokens (uciLine : String)
    (needPlies : Nat) (h1 : 1 ≤ needPlies)
    (hlen : needPlies ≤ (lineTokens (normalizeUciLine uciLine)).length) :
    normalizeUciLine uciLine ≠ "" := by
  intro he
  rw [he] at hlen
  rw [lineTokens_empty] at hlen
  omega

theorem validate_badshape {Pos : Type} (eng : ChessEngine Pos) (fen uciLine : String)
    (needPlies : Nat) (h1 : 1 ≤ needPlies)
    (hlen : needPlies ≤ (lineTokens (normalizeUciLine uciLine)).length)
    (hbad : ¬ ((lineTokens (normalizeUciLine uciLine)).take needPlies).all isUciMove = true) :
    validateUciLineLegal eng fen uciLine needPlies = some ⟨false, 0⟩ := by
  simp only [validateUciLineLegal]
  rw [if_neg (normalize_ne_empty_of_tokens uciLine needPlies h1 hlen)]
  have hmlen : ¬ ((lineTokens (normalizeUciLine uciLine)).take needPlies).length ≠ needPlies := by
    rw [List.length_take]; omega
  rw [if_neg hmlen]
  have hcond : (!((lineTokens (normalizeUciLine uciLine)).take needPlies).all isUciMove) = true := by
    cases hx : ((lineTokens (normalizeUciLine uciLine)).take needPlies).all isUciMove
    · rfl
    · exact absurd hx hbad
  rw [if_pos hcond]

theorem validate_run {Pos : Type} (eng : ChessEngine Pos) (fen uciLine : String)
    (needPlies : Nat) (pos : Pos) (h1 : 1 ≤ needPlies)
    (hlen : needPlies ≤ (lineTokens (normalizeUciLine uciLine)).length)
    (hall : ((lineTokens (normalizeUciLine uciLine)).take needPlies).all isUciMove = true)
    (hinit : eng.init fen = some pos) :
    validateUciLineLegal eng fen uciLine needPlies =
      some ⟨appliesAll eng pos ((lineTokens (normalizeUciLine uciLine)).take needPlies),
        appliedCount eng pos ((lineTokens (normalizeUciLine uciLine)).take needPlies)⟩ := by
  simp only [validateUciLineLegal]
  rw [if_neg (normalize_ne_empty_of_tokens uciLine needPlies h1 hlen)]
  have hmlen : ¬ ((lineTokens (normalizeUciLine uciLine)).take needPlies).length ≠ needPlies := by
    rw [List.length_take]; omega
  rw [if_neg hmlen]
  rw [if_neg (by rw [hall]; exact Bool.false_ne_true)]
  rw [hinit]
  simp only
  rw [replayLoop_eq, Nat.zero_add]

theorem validate_some_legal_inv {Pos : Type} (eng : ChessEngine Pos) (fen uciLine : String)
    (need : Nat) (pos : Pos) (k : Nat) (hinit : eng.init fen = some pos)
    (h : validateUciLineLegal eng fen uciLine need = some ⟨true, k⟩) :
    normalizeUciLine uciLine ≠ "" ∧
    ((lineTokens (normalizeUciLine uciLine)).take need).length = need ∧
    ((lineTokens (normalizeUciLine uciLine)).take need).all isUciMove = true ∧
    appliesAll eng pos ((lineTokens (normalizeUciLine uciLine)).take need) = true ∧
    k = appliedCount eng pos ((lineTokens (normalizeUciLine uciLine)).take need) := by
  simp only [validateUciLineLegal] at h
  split at h
  · simp at h
  · split at h
    · simp at h
    · split at h
      · simp at h
      · rename_i hne hmlen hsh
        rw [hinit] at h
        simp only at h
        rw [replayLoop_eq, Nat.zero_add] at h
        simp only [Option.some.injEq, ValidationResult.mk.injEq] at h
        refine ⟨hne, by omega, ?_, h.1, h.2.symm⟩
        cases hx : ((lineTokens (normalizeUciLine uciLine)).take need).all isUciMove
        · rw [hx] at hsh; exact absurd rfl hsh
        · rfl

/-- C2 counterexample: the claim as stated requires every line whose token
count differs from the required count to be rejected with `isLegal = false`,
`appliedPlies = 0`; but a two-token line with required count 1 is truncated
to its first token and validated successfully. -/
theorem c2_counterexample :
    (lineTokens (normalizeUciLine "e2e4 e7e5")).length = 2 ∧ (2 : Nat) ≠ 1 ∧
      validateUciLineLegal unitEngine "startpos" "e2e4 e7e5" 1 =
        some ⟨true, 1⟩ :=
  ⟨by decide, by decide, by decide⟩

/-- C2 (amended): `validateUciLineLegal` returns `isLegal = false` with
`appliedPlies = 0` when the normalized line is empty, when it has fewer
tokens than required (in particular one ply short), or when one of the first
`needPlies` tokens fails the UCI shape check; a line with more tokens than
required is not rejected but truncated to the first `needPlies` tokens.
Otherwise it replays the (truncated) tokens in order from the starting
position, reports the count of successfully applied plies (the longest
applying prefix, so it stops at the first illegal move), and `isLegal = true`
exactly when every required ply applies. -/
theorem c2_validateUciLineLegal_amended {Pos : Type} (eng : ChessEngine Pos)
    (fen uciLine : String) (needPlies : Nat) (pos : Pos) :
    (normalizeUciLine uciLine = "" →
      validateUciLineLegal eng fen uciLine needPlies = some ⟨false, 0⟩) ∧
    ((lineTokens (normalizeUciLine uciLine)).length < needPlies →
      validateUciLineLegal eng fen uciLine needPlies = some ⟨false, 0⟩) ∧
    (1 ≤ needPlies → needPlies ≤ (lineTokens (normalizeUciLine uciLine)).length →
      ¬ ((lineTokens (normalizeUciLine uciLine)).take needPlies).all isUciMove = true →
      validateUciLineLegal eng fen uciLine needPlies = some ⟨false, 0⟩) ∧
    (1 ≤ needPlies → needPlies ≤ (lineTokens (normalizeUciLine uciLine)).length →
      ((lineTokens (normalizeUciLine uciLine)).take needPlies).all isUciMove = true →
      eng.init fen = some pos →
      validateUciLineLegal eng fen uciLine needPlies =
        some ⟨appliesAll eng pos ((lineTokens (normalizeUciLine uciLine)).take needPlies),
          appliedCount eng pos ((lineTokens (normalizeUciLine uciLine)).take needPlies)⟩) :=
  ⟨validate_empty eng fen uciLine needPlies,
    validate_short eng fen uciLine needPlies,
    validate_badshape eng fen uciLine needPlies,
    fun h1 hlen hall hinit => validate_run eng fen uciLine needPlies pos h1 hlen hall hinit⟩

/-- Witness for C2 at a concrete legal two-ply line. -/
theorem c2_witness :
    validateUciLineLegal unitEngine "startpos" "e2e4 e7e5" 2 =
      some ⟨appliesAll unitEngine () ((lineTokens (normalizeUciLine "e2e4 e7e5")).take 2),
        appliedCount unitEngine () ((lineTokens (normalizeUciLine "e2e4 e7e5")).take 2)⟩ :=
  (c2_validateUciLineLegal_amended unitEngine "startpos" "e2e4 e7e5" 2 ()).2.2.2
    (by decide) (by decide) (by decide) rfl

/-! Lemmas characterizing the SAN fallback. -/

theorem sanLoop_eq_greedy {Pos : Type} (eng : ChessEngine Pos) (need : Nat) :
    ∀ (toks : List String) (pos : Pos) (acc : List String),
    sanLoop eng need pos toks acc =
      acc ++ (greedyReplay eng pos toks).take (need - acc.length) := by
  intro toks
  induction toks with
  | nil => intro pos acc; simp [sanLoop, greedyReplay]
  | cons san rest ih =>
    intro pos acc
    by_cases hge : acc.length ≥ need
    · simp only [sanLoop]
      rw [if_pos hge]
      have h0 : need - acc.length = 0 := by omega
      rw [h0, List.take_zero, List.append_nil]
    · simp only [sanLoop]
      rw [if_neg hge]
      cases hm : eng.moveSan pos san with
      | none =>
        simp only [greedyReplay, hm]
        exact ih pos acc
      | some pr =>
        obtain ⟨pos', mv⟩ := pr
        simp only [greedyReplay, hm]
        rw [ih pos' (acc ++ [uciOfMove mv])]
        rw [List.append_assoc]
        congr 1
        have hs : need - acc.length = (need - (acc ++ [uciOfMove mv]).length) + 1 := by
          simp only [List.length_append, List.length_cons, List.length_nil]
          omega
        rw [hs, List.take_succ_cons, List.singleton_append]

theorem tryParseSan_spec {Pos : Type} (eng : ChessEngine Pos) (fen : String) (need : Nat)
    (text : String) (pos : Pos) (hinit : eng.init fen = some pos) :
    tryParseSanToUciLine eng fen need text =
      some (if (extractSanCandidates text).length = 0 then ""
        else if (greedyReplay eng pos (extractSanCandidates text)).take need = [] then ""
        else joinLine ((greedyReplay eng pos (extractSanCandidates text)).take need)) := by
  simp only [tryParseSanToUciLine]
  by_cases h0 : (extractSanCandidates text).length = 0
  · rw [if_pos h0, if_pos h0]
  · rw [if_neg h0, if_neg h0, hinit]
    simp only
    rw [sanLoop_eq_greedy]
    simp only [List.nil_append, List.length_nil, Nat.sub_zero]
    by_cases hacc : (greedyReplay eng pos (extractSanCandidates text)).take need = []
    · rw [if_pos hacc, hacc]
      simp
    · rw [if_neg hacc]
      have hpos : ((greedyReplay eng pos (extractSanCandidates text)).take need).length > 0 :=
        List.length_pos.mpr hacc
      rw [if_pos hpos, List.take_take, Nat.min_self]

/-- C4 counterexample: with required ply count 2 and a text containing a
single applicable SAN token, `tryParseSanToUciLine` returns a non-empty
one-ply line instead of failing with an empty result as the claim states. -/
theorem c4_counterexample :
    tryParseSanToUciLine sanPawnEngine "fen" 2 "d5" = some "d4d5" ∧
      ("d4d5" : String) ≠ "" ∧ (lineTokens "d4d5").length = 1 ∧ (1 : Nat) < 2 :=
  ⟨by decide, by decide, by decide, by decide⟩

/-- C4 (amended): the SAN fallback replays the extracted SAN tokens in order
of appearance, skipping any token that fails to apply without aborting the
line, and stops accumulating once `need` moves have been collected; the
result is empty exactly when there are no SAN tokens or no token ever
applies, and otherwise it is the space-joined list of the first
`min(applied, need)` converted moves — which is a non-empty line possibly
shorter than `need` plies when fewer than `need` moves are ever accumulated
(the source only guards `uci.length > 0`, not `= need`). -/
theorem c4_tryParseSanToUciLine_amended {Pos : Type} (eng : ChessEngine Pos)
    (fen text : String) (need : Nat) (pos : Pos) (hinit : eng.init fen = some pos) :
    (∀ (p : Pos) (san : String) (rest : List String), eng.moveSan p san = Option.none →
      greedyReplay eng p (san :: rest) = greedyReplay eng p rest) ∧
    (∀ (p p' : Pos) (san : String) (mv : MoveRec) (rest : List String),
      eng.moveSan p san = some (p', mv) →
      greedyReplay eng p (san :: rest) = uciOfMove mv :: greedyReplay eng p' rest) ∧
    ((greedyReplay eng pos (extractSanCandidates text)).take need).length ≤ need ∧
    tryParseSanToUciLine eng fen need text =
      some (if (extractSanCandidates text).length = 0 then ""
        else if (greedyReplay eng pos (extractSanCandidates text)).take need = [] then ""
        else joinLine ((greedyReplay eng pos (extractSanCandidates text)).take need)) := by
  refine ⟨?_, ?_, ?_, tryParseSan_spec eng fen need text pos hinit⟩
  · intro p san rest h
    simp only [greedyReplay, h]
  · intro p p' san mv rest h
    simp only [greedyReplay, h]
  · rw [List.length_take]
    omega

/-- Witness for C4 at the concrete one-applicable-token input. -/
theorem c4_witness :
    tryParseSanToUciLine sanPawnEngine "fen" 2 "d5" =
      some (if (extractSanCandidates "d5").length = 0 then ""
        else if (greedyReplay sanPawnEngine () (extractSanCandidates "d5")).take 2 = [] then ""
        else joinLine ((greedyReplay sanPawnEngine () (extractSanCandidates "d5")).take 2)) :=
  (c4_tryParseSanToUciLine_amended sanPawnEngine "fen" "d5" 2 () rfl).2.2.2

/-! Lemmas for the resolver variants. -/

theorem stringMk_eq_empty_iff (l : List Char) : String.mk l = "" ↔ l = [] := by
  rw [show ("" : String) = String.mk [] from rfl]
  exact ⟨fun h => by injection h, fun h => by rw [h]⟩

theorem string_length_pos (s : String) : 0 < s.length ↔ s ≠ "" := by
  obtain ⟨data⟩ := s
  rw [show (String.mk data).length = data.length from rfl, Ne, stringMk_eq_empty_iff]
  exact List.length_pos

theorem joinLine_nil : joinLine [] = "" := rfl

theorem joinLine_cons_ne_empty (t : String) (ts : List String) (ht : t.toList ≠ []) :
    joinLine (t :: ts) ≠ "" := by
  unfold joinLine
  intro h
  rw [stringMk_eq_empty_iff] at h
  cases ts with
  | nil => exact ht (by simpa [joinSep] using h)
  | cons t2 ts2 =>
    simp only [List.map_cons, joinSep] at h
    simp at h

/-- C1 counterexample: with required ply count 3 and just one extracted UCI
token, the bench/run.ts resolver emits the partial one-token line with parse
method `uci` — instead of producing no UCI output and falling back to SAN as
the claim states. -/
theorem c1_counterexample :
    (extractUciTokens "e2e4").length = 1 ∧ (1 : Nat) < 3 ∧
      resolveLine unitEngine "fen" 3 "e2e4" = some ("e2e4", ParseMethod.uci) :=
  ⟨by decide, by decide, by decide⟩

/-- C1 (amended): the two resolver variants disagree.  In the bench/run.ts
resolver (`resolveLine`), whenever at least one UCI token is extracted the
UCI step emits the first `min(count, need)` tokens — a partial line shorter
than `need` when fewer exist — with method `uci`, and SAN fallback on the
same text runs only when no UCI token at all was extracted.  In the
`[RESULT]`-tag variant (`parseContent`), the claim holds as stated: with at
least `need` extracted UCI tokens the first `need` are emitted with method
`uci`, and with fewer than `need` the UCI method produces no output and
resolution falls back to SAN extraction on the same target text. -/
theorem c1_resolveLine_amended {Pos : Type} (eng : ChessEngine Pos) (fen content : String)
    (need : Nat) :
    (1 ≤ need → extractUciTokens content ≠ [] →
      resolveLine eng fen need content =
        some (joinLine ((extractUciTokens content).take need), ParseMethod.uci)) ∧
    (extractUciTokens content = [] →
      resolveLine eng fen need content = (tryParseSanToUciLine eng fen need content).map
        (fun p2 => if p2.length > 0 then (p2, ParseMethod.san) else ("", ParseMethod.none))) ∧
    (need ≤ (extractUciTokens (uciTarget content)).length →
      parseContent eng fen need content =
        some (joinLine ((extractUciTokens (uciTarget content)).take need), ParseMethod.uci)) ∧
    ((extractUciTokens (uciTarget content)).length < need →
      parseContent eng fen need content =
        (tryParseSanToUciLine eng fen need (uciTarget content)).map
          (fun sanLine => if sanLine ≠ "" then (sanLine, ParseMethod.san)
            else ("", ParseMethod.none))) := by
  refine ⟨?_, ?_, ?_, ?_⟩
  · intro h1 hne
    obtain ⟨t, ts, hts⟩ := List.exists_cons_of_ne_nil hne
    have htmem : t ∈ extractUciTokens content := by
      rw [hts]; exact List.mem_cons_self _ _
    have hlen := uciScanAux_isUciMove _ _ _ _ ((dedupFirst_mem _ _).mp htmem)
    have htne : t.toList ≠ [] := by
      intro hnil
      have hz : t.length = 0 := by
        rw [show t.length = t.toList.length from rfl, hnil]; rfl
      rcases hlen.2 with h4 | h5 <;> omega
    have hjoin : joinLine ((extractUciTokens content).take need) ≠ "" := by
      rw [hts]
      obtain ⟨k, rfl⟩ : ∃ k, need = k + 1 := ⟨need - 1, by omega⟩
      rw [List.take_succ_cons]
      exact joinLine_cons_ne_empty t _ htne
    simp only [resolveLine]
    rw [if_pos ((string_length_pos _).mpr hjoin)]
  · intro hnil
    simp only [resolveLine, hnil, List.take_nil, joinLine_nil]
    rw [if_neg (by decide)]
    cases hts : tryParseSanToUciLine eng fen need content with
    | none => simp
    | some p2 =>
      simp only [hts, Option.map_some']
      split <;> rfl
  · intro hge
    simp only [parseContent]
    rw [if_pos hge]
  · intro hlt
    simp only [parseContent]
    rw [if_neg (by omega)]
    cases hts : tryParseSanToUciLine eng fen need (uciTarget content) with
    | none => simp
    | some sanLine =>
      simp only [hts, Option.map_some']
      split <;> rfl

/-- Witness for C1 at a concrete text with one extracted UCI token and
required count 3 (the `parseContent` fall-through branch). -/
theorem c1_witness :
    parseContent unitEngine "fen" 3 "e2e4" =
      (tryParseSanToUciLine unitEngine "fen" 3 (uciTarget "e2e4")).map
        (fun sanLine => if sanLine ≠ "" then (sanLine, ParseMethod.san)
          else ("", ParseMethod.none)) :=
  (c1_resolveLine_amended unitEngine "fen" "e2e4" 3).2.2.2 (by decide)

/-! Lemmas for the retry policy of the orchestrator. -/

theorem string_eq_empty_of_length_zero (p : String) (h : p.length = 0) : p = "" := by
  by_contra hne
  have := (string_length_pos p).mpr hne
  omega

theorem evalOne_cases {Pos : Type} (eng : ChessEngine Pos) (model : BenchModel)
    (puzzle : BenchPuzzle) (api : Nat → CallOut) :
    (resolveLine eng puzzle.fen (requiredPlies puzzle.level)
        (api (model.maxTokens.getD 128)).content = Option.none ∧
      evalOne eng model puzzle api = (Option.none, [model.maxTokens.getD 128])) ∨
    (∃ p m, resolveLine eng puzzle.fen (requiredPlies puzzle.level)
        (api (model.maxTokens.getD 128)).content = some (p, m) ∧
      ((p = "" ∧ (∃ n, (api (model.maxTokens.getD 128)).completionTokens = some n ∧
          model.maxTokens.getD 128 ≤ n) ∧
        evalOne eng model puzzle api =
          ((match resolveLine eng puzzle.fen (requiredPlies puzzle.level)
              (api (retryMax (model.maxTokens.getD 128))).content with
            | Option.none => Option.none
            | some (p2, m2) => finalizeResult eng puzzle (requiredPlies puzzle.level) p2 m2
                (api (retryMax (model.maxTokens.getD 128)))),
            [model.maxTokens.getD 128, retryMax (model.maxTokens.getD 128)])) ∨
       (¬(p = "" ∧ ∃ n, (api (model.maxTokens.getD 128)).completionTokens = some n ∧
           model.maxTokens.getD 128 ≤ n) ∧
        evalOne eng model puzzle api =
          (finalizeResult eng puzzle (requiredPlies puzzle.level) p m
            (api (model.maxTokens.getD 128)), [model.maxTokens.getD 128])))) := by
  cases hres : resolveLine eng puzzle.fen (requiredPlies puzzle.level)
      (api (model.maxTokens.getD 128)).content with
  | none =>
    left
    refine ⟨rfl, ?_⟩
    simp only [evalOne, hres]
  | some pm =>
    obtain ⟨p, m⟩ := pm
    right
    refine ⟨p, m, rfl, ?_⟩
    by_cases hcond : (decide (p.length = 0) &&
        (match (api (model.maxTokens.getD 128)).completionTokens with
          | some n => decide (model.maxTokens.getD 128 ≤ n)
          | Option.none => false)) = true
    · left
      have hcond' := hcond
      rw [Bool.and_eq_true] at hcond'
      obtain ⟨hzero, hlim⟩ := hcond'
      have hp : p = "" :=
        string_eq_empty_of_length_zero p (of_decide_eq_true hzero)
      refine ⟨hp, ?_, ?_⟩
      · cases hn : (api (model.maxTokens.getD 128)).completionTokens with
        | none => rw [hn] at hlim; cases hlim
        | some n =>
          rw [hn] at hlim
          exact ⟨n, rfl, of_decide_eq_true hlim⟩
      · simp only [evalOne, hres, if_pos hcond]
        cases hres2 : resolveLine eng puzzle.fen (requiredPlies puzzle.level)
            (api (retryMax (model.maxTokens.getD 128))).content with
        | none => rfl
        | some pm2 =>
          obtain ⟨p2, m2⟩ := pm2
          rfl
    · right
      refine ⟨?_, ?_⟩
      · rintro ⟨hp, n, hn, hle⟩
        apply hcond
        rw [Bool.and_eq_true]
        constructor
        · rw [decide_eq_true_eq, hp]; rfl
        · rw [hn]
          exact decide_eq_true hle
      · simp only [evalOne, hres, if_neg hcond]

/-- C5: per evaluation the completion collaborator is re-invoked at most once
beyond the first call (the budget list has one or two entries); the retry
happens exactly when the first parse produced an empty candidate line and
the reported completion token count reached the configured budget; the retry
budget is `min (max (4 * configured) 256) 1024` — at least four times the
original whenever that does not exceed the 1024 ceiling — and after the
retry the evaluation proceeds to validation of the retry parse regardless of
outcome; a non-empty first parse is finalized directly with no retry. -/
theorem c5_retry_policy {Pos : Type} (eng : ChessEngine Pos) (model : BenchModel)
    (puzzle : BenchPuzzle) (api : Nat → CallOut) :
    (retryMax (model.maxTokens.getD 128) =
        min (max (model.maxTokens.getD 128 * 4) 256) 1024 ∧
      (model.maxTokens.getD 128 * 4 ≤ 1024 →
        model.maxTokens.getD 128 * 4 ≤ retryMax (model.maxTokens.getD 128)) ∧
      retryMax (model.maxTokens.getD 128) ≤ 1024) ∧
    ((evalOne eng model puzzle api).2 = [model.maxTokens.getD 128] ∨
      (evalOne eng model puzzle api).2 =
        [model.maxTokens.getD 128, retryMax (model.maxTokens.getD 128)]) ∧
    ((evalOne eng model puzzle api).2 =
        [model.maxTokens.getD 128, retryMax (model.maxTokens.getD 128)] ↔
      ((∃ m, resolveLine eng puzzle.fen (requiredPlies puzzle.level)
          (api (model.maxTokens.getD 128)).content = some ("", m)) ∧
        ∃ n, (api (model.maxTokens.getD 128)).completionTokens = some n ∧
          model.maxTokens.getD 128 ≤ n)) ∧
    (∀ m, resolveLine eng puzzle.fen (requiredPlies puzzle.level)
        (api (model.maxTokens.getD 128)).content = some ("", m) →
      (∃ n, (api (model.maxTokens.getD 128)).completionTokens = some n ∧
        model.maxTokens.getD 128 ≤ n) →
      evalOne eng model puzzle api =
        ((match resolveLine eng puzzle.fen (requiredPlies puzzle.level)
            (api (retryMax (model.maxTokens.getD 128))).content with
          | Option.none => Option.none
          | some (p2, m2) => finalizeResult eng puzzle (requiredPlies puzzle.level) p2 m2
              (api (retryMax (model.maxTokens.getD 128)))),
          [model.maxTokens.getD 128, retryMax (model.maxTokens.getD 128)])) ∧
    (∀ p m, resolveLine eng puzzle.fen (requiredPlies puzzle.level)
        (api (model.maxTokens.getD 128)).content = some (p, m) → p ≠ "" →
      evalOne eng model puzzle api =
        (finalizeResult eng puzzle (requiredPlies puzzle.level) p m
          (api (model.maxTokens.getD 128)), [model.maxTokens.getD 128])) := by
  have key := evalOne_cases eng model puzzle api
  refine ⟨⟨rfl, ?_, ?_⟩, ?_, ?_, ?_, ?_⟩
  · intro h
    unfold retryMax
    omega
  · unfold retryMax
    omega
  · rcases key with ⟨-, heq⟩ | ⟨p, m, -, ⟨-, -, heq⟩ | ⟨-, heq⟩⟩ <;> rw [heq]
    · exact Or.inl rfl
    · exact Or.inr rfl
    · exact Or.inl rfl
  · constructor
    · intro h2
      rcases key with ⟨-, heq⟩ | ⟨p, m, hres, ⟨hp, hn, heq⟩ | ⟨hneg, heq⟩⟩ <;>
          rw [heq] at h2 <;> simp at h2
      · exact ⟨⟨m, hp ▸ hres⟩, hn⟩
    · rintro ⟨⟨m, hres0⟩, n, hn, hle⟩
      rcases key with ⟨hnone, -⟩ | ⟨p, m', hres, ⟨-, -, heq⟩ | ⟨hneg, -⟩⟩
      · rw [hnone] at hres0; cases hres0
      · rw [heq]
      · rw [hres] at hres0
        simp only [Option.some.injEq, Prod.mk.injEq] at hres0
        exact absurd ⟨hres0.1, n, hn, hle⟩ hneg
  · intro m hres0 hn
    rcases key with ⟨hnone, -⟩ | ⟨p, m', hres, ⟨-, -, heq⟩ | ⟨hneg, -⟩⟩
    · rw [hnone] at hres0; cases hres0
    · exact heq
    · rw [hres] at hres0
      simp only [Option.some.injEq, Prod.mk.injEq] at hres0
      exact absurd ⟨hres0.1, hn⟩ hneg
  · intro p m hres0 hp
    rcases key with ⟨hnone, -⟩ | ⟨p', m', hres, ⟨hemp, -, -⟩ | ⟨-, heq⟩⟩
    · rw [hnone] at hres0; cases hres0
    · rw [hres] at hres0
      simp only [Option.some.injEq, Prod.mk.injEq] at hres0
      exact absurd (hres0.1 ▸ hemp) hp
    · rw [hres] at hres0
      simp only [Option.some.injEq, Prod.mk.injEq] at hres0
      rw [← hres0.1, ← hres0.2]
      exact heq

/-- Witness for C5 at a concrete evaluation whose first parse succeeds (no
retry is made). -/
theorem c5_witness :
    evalOne unitEngine ⟨"m", "m", some 100⟩ ⟨"p", MateLevel.mate1, "fen", Option.none, "g5h4"⟩
        (fun _ => ⟨"g5h4", 10, Option.none, some 50, Option.none⟩) =
      (finalizeResult unitEngine ⟨"p", MateLevel.mate1, "fen", Option.none, "g5h4"⟩
        (requiredPlies MateLevel.mate1) "g5h4" ParseMethod.uci
        ⟨"g5h4", 10, Option.none, some 50, Option.none⟩, [100]) :=
  (c5_retry_policy unitEngine ⟨"m", "m", some 100⟩
      ⟨"p", MateLevel.mate1, "fen", Option.none, "g5h4"⟩
      (fun _ => ⟨"g5h4", 10, Option.none, some 50, Option.none⟩)).2.2.2.2
    "g5h4" ParseMethod.uci (by decide) (by decide)

/-! Lowercase-invariance lemmas used for the correctness characterization. -/

theorem jsWhitespace_jsToLower (c : Char) : jsWhitespace (jsToLower c) = jsWhitespace c := by
  unfold jsToLower
  split <;> rfl

theorem space_decide_jsToLower (c : Char) :
    decide (jsToLower c = ' ') = decide (c = ' ') := by
  unfold jsToLower
  split <;> rfl

theorem isFileCI_jsToLower (c : Char) : isFileCI (jsToLower c) = isFileCI c := by
  unfold jsToLower
  split <;> rfl

theorem isRankCh_jsToLower (c : Char) : isRankCh (jsToLower c) = isRankCh c := by
  unfold jsToLower
  split <;> rfl

theorem isPromoCI_jsToLower (c : Char) : isPromoCI (jsToLower c) = isPromoCI c := by
  unfold jsToLower
  split <;> rfl

theorem splitRunsAux_map (f : Char → Char) (p : Char → Bool)
    (hpf : ∀ c, p (f c) = p c) : ∀ (l acc : List Char),
    splitRunsAux p (l.map f) (acc.map f) = (splitRunsAux p l acc).map (List.map f) := by
  intro l
  induction l with
  | nil =>
    intro acc
    simp only [List.map_nil, splitRunsAux]
    by_cases h : acc = []
    · rw [h]
      simp
    · rw [if_neg (by simpa using h), if_neg h]
      simp [List.map_reverse]
  | cons c l ih =>
    intro acc
    simp only [List.map_cons, splitRunsAux, hpf c]
    by_cases hp : p c = true
    · rw [if_pos hp, if_pos hp]
      by_cases h : acc = []
      · rw [h]
        simp only [List.map_nil, if_pos rfl]
        exact ih []
      · rw [if_neg (by simpa using h), if_neg h]
        rw [List.map_cons, ← List.map_reverse]
        exact congrArg _ (ih [])
    · rw [if_neg hp, if_neg hp]
      exact ih (c :: acc)

theorem strToLower_toList (s : String) : (strToLower s).toList = s.toList.map jsToLower := rfl

theorem lineTokens_strToLower (s : String) :
    lineTokens (strToLower s) = (lineTokens s).map strToLower := by
  unfold lineTokens splitRuns
  rw [strToLower_toList]
  have h := splitRunsAux_map jsToLower (fun c => decide (c = ' '))
    space_decide_jsToLower s.toList []
  simp only [List.map_nil] at h
  rw [h, List.map_map, List.map_map]
  rfl

theorem jsTrimList_map_lower (l : List Char) :
    jsTrimList (l.map jsToLower) = (jsTrimList l).map jsToLower := by
  unfold jsTrimList
  have hws : (jsWhitespace ∘ jsToLower) = jsWhitespace := funext jsWhitespace_jsToLower
  rw [List.dropWhile_map, hws, ← List.map_reverse, List.dropWhile_map, hws, ← List.map_reverse]

theorem isUciMove_strToLower (t : String) : isUciMove (strToLower t) = isUciMove t := by
  unfold isUciMove
  rw [strToLower_toList, jsTrimList_map_lower]
  rcases jsTrimList t.toList with _ | ⟨a, _ | ⟨b, _ | ⟨c, _ | ⟨d, _ | ⟨e, _ | ⟨g, tl⟩⟩⟩⟩⟩⟩ <;>
    simp [isFileCI_jsToLower, isRankCh_jsToLower, isPromoCI_jsToLower]

theorem scoreMove_eq_true_iff (e g : String) :
    scoreMove e g = true ↔ strToLower (normalizeUciLine e) = strToLower (normalizeUciLine g) := by
  unfold scoreMove
  exact beq_iff_eq

theorem scoreMove_lineTokens_map (e g : String) (h : scoreMove e g = true) :
    (lineTokens (normalizeUciLine e)).map strToLower =
      (lineTokens (normalizeUciLine g)).map strToLower := by
  have heq := (scoreMove_eq_true_iff e g).mp h
  rw [← lineTokens_strToLower, ← lineTokens_strToLower, heq]

theorem finalizeResult_pos {Pos : Type} (eng : ChessEngine Pos) (puzzle : BenchPuzzle)
    (need : Nat) (parsed : String) (method : ParseMethod) (resp : CallOut)
    (r : ModelPuzzleResult) (hlen : parsed.length > 0)
    (h : finalizeResult eng puzzle need parsed method resp = some r) :
    ∃ legality, validateUciLineLegal eng puzzle.fen parsed need = some legality ∧
      r.isCorrect = (decide (parsed.length > 0) && legality.isLegal &&
        scoreMove puzzle.solutionUci parsed) ∧
      r.isLegal = some legality.isLegal := by
  simp only [finalizeResult, if_pos hlen] at h
  cases hv : validateUciLineLegal eng puzzle.fen parsed need with
  | none => rw [hv] at h; cases h
  | some legality =>
    rw [hv] at h
    simp only [Option.some.injEq] at h
    subst h
    exact ⟨legality, rfl, rfl, rfl⟩

theorem finalizeResult_zero {Pos : Type} (eng : ChessEngine Pos) (puzzle : BenchPuzzle)
    (need : Nat) (parsed : String) (method : ParseMethod) (resp : CallOut)
    (r : ModelPuzzleResult) (hlen : ¬ parsed.length > 0)
    (h : finalizeResult eng puzzle need parsed method resp = some r) :
    r.isCorrect = false ∧ r.isLegal = Option.none := by
  simp only [finalizeResult, if_neg hlen] at h
  simp only [Option.some.injEq] at h
  subst h
  refine ⟨?_, rfl⟩
  show (decide (parsed.length > 0) && false &&
    scoreMove puzzle.solutionUci parsed) = false
  simp

/-- C3: in the packaging step of `evalOne`, the result's `isCorrect` flag is
true exactly when the parsed candidate line is non-empty, every one of its
plies applies legally in sequence from the puzzle's starting position, and
the whitespace-normalized, case-insensitive candidate equals the solution
line (`scoreMove`); consequently `isCorrect = true` never holds unless
legality validation fully succeeded on all `need` plies.  The hypotheses
state the data-model invariants that the solution line has exactly the
required ply count and well-shaped tokens, and that the puzzle FEN is
accepted by the rules engine. -/
theorem c3_isCorrect_characterization {Pos : Type} (eng : ChessEngine Pos)
    (puzzle : BenchPuzzle) (need : Nat) (parsed : String) (method : ParseMethod)
    (resp : CallOut) (pos : Pos) (r : ModelPuzzleResult)
    (hneed : 1 ≤ need)
    (hinit : eng.init puzzle.fen = some pos)
    (hsolLen : (lineTokens (normalizeUciLine puzzle.solutionUci)).length = need)
    (hsolShape : ∀ t ∈ lineTokens (normalizeUciLine puzzle.solutionUci), isUciMove t = true)
    (hres : finalizeResult eng puzzle need parsed method resp = some r) :
    (r.isCorrect = true ↔
      (parsed ≠ "" ∧ appliesAll eng pos (lineTokens (normalizeUciLine parsed)) = true ∧
        scoreMove puzzle.solutionUci parsed = true)) ∧
    (r.isCorrect = true →
      validateUciLineLegal eng puzzle.fen parsed need = some ⟨true, need⟩ ∧
        r.isLegal = some true) := by
  have tokenFacts : scoreMove puzzle.solutionUci parsed = true →
      (lineTokens (normalizeUciLine parsed)).length = need ∧
      ∀ t ∈ lineTokens (normalizeUciLine parsed), isUciMove t = true := by
    intro hscore
    have hmap := scoreMove_lineTokens_map _ _ hscore
    constructor
    · have hlen := congrArg List.length hmap
      simp only [List.length_map] at hlen
      omega
    · intro t ht
      have hmem : strToLower t ∈ (lineTokens (normalizeUciLine parsed)).map strToLower :=
        List.mem_map_of_mem _ ht
      rw [← hmap] at hmem
      obtain ⟨s, hs, hst⟩ := List.mem_map.mp hmem
      rw [← isUciMove_strToLower t, ← hst, isUciMove_strToLower]
      exact hsolShape s hs
  have forward : r.isCorrect = true →
      (parsed ≠ "" ∧ appliesAll eng pos (lineTokens (normalizeUciLine parsed)) = true ∧
        scoreMove puzzle.solutionUci parsed = true) ∧
      validateUciLineLegal eng puzzle.fen parsed need = some ⟨true, need⟩ ∧
        r.isLegal = some true := by
    intro hic
    by_cases hlen : parsed.length > 0
    · obtain ⟨legality, hv, hic_eq, hil⟩ :=
        finalizeResult_pos eng puzzle need parsed method resp r hlen hres
      rw [hic_eq, Bool.and_eq_true, Bool.and_eq_true] at hic
      obtain ⟨⟨-, hl⟩, hs⟩ := hic
      obtain ⟨hplen, hpshape⟩ := tokenFacts hs
      obtain ⟨lg, k⟩ := legality
      simp only at hl
      subst hl
      obtain ⟨hne, htklen, hall, happ, hk⟩ :=
        validate_some_legal_inv eng puzzle.fen parsed need pos k hinit hv
      have htake : (lineTokens (normalizeUciLine parsed)).take need =
          lineTokens (normalizeUciLine parsed) :=
        List.take_of_length_le (le_of_eq hplen)
      have hkval : k = need := by
        rw [hk, appliedCount_of_appliesAll eng _ pos happ, htklen]
      refine ⟨⟨(string_length_pos parsed).mp hlen, ?_, hs⟩, ?_, ?_⟩
      · rw [← htake]; exact happ
      · rw [hv, hkval]
      · rw [hil]
    · obtain ⟨hic0, -⟩ := finalizeResult_zero eng puzzle need parsed method resp r hlen hres
      rw [hic0] at hic
      cases hic
  have reverse : parsed ≠ "" →
      appliesAll eng pos (lineTokens (normalizeUciLine parsed)) = true →
      scoreMove puzzle.solutionUci parsed = true → r.isCorrect = true := by
    intro hne happ hscore
    obtain ⟨hplen, hpshape⟩ := tokenFacts hscore
    have hlen : parsed.length > 0 := (string_length_pos parsed).mpr hne
    obtain ⟨legality, hv, hic_eq, -⟩ :=
      finalizeResult_pos eng puzzle need parsed method resp r hlen hres
    have htake : (lineTokens (normalizeUciLine parsed)).take need =
        lineTokens (normalizeUciLine parsed) :=
      List.take_of_length_le (le_of_eq hplen)
    have hvrun := validate_run eng puzzle.fen parsed need pos hneed (le_of_eq hplen.symm)
      (by
        rw [htake]
        rw [List.all_eq_true]
        exact hpshape) hinit
    rw [hv] at hvrun
    simp only [Option.some.injEq] at hvrun
    rw [hic_eq, hvrun]
    simp only [htake, happ]
    simp [hlen, hscore]
  refine ⟨⟨fun h => (forward h).1, fun ⟨a, b, c⟩ => reverse a b c⟩, fun h => (forward h).2⟩

/-- Witness for C3 at a concrete correct one-ply evaluation. -/
theorem c3_witness :
    ((⟨"g5h4", true, some true, ParseMethod.uci, "raw", 5, Option.none, Option.none,
        Option.none⟩ : ModelPuzzleResult).isCorrect = true ↔
      (("g5h4" : String) ≠ "" ∧
        appliesAll unitEngine () (lineTokens (normalizeUciLine "g5h4")) = true ∧
        scoreMove (BenchPuzzle.solutionUci ⟨"p", MateLevel.mate1, "fen", Option.none, "g5h4"⟩)
          "g5h4" = true)) ∧
    ((⟨"g5h4", true, some true, ParseMethod.uci, "raw", 5, Option.none, Option.none,
        Option.none⟩ : ModelPuzzleResult).isCorrect = true →
      validateUciLineLegal unitEngine
          (BenchPuzzle.fen ⟨"p", MateLevel.mate1, "fen", Option.none, "g5h4"⟩) "g5h4" 1 =
        some ⟨true, 1⟩ ∧
      (⟨"g5h4", true, some true, ParseMethod.uci, "raw", 5, Option.none, Option.none,
        Option.none⟩ : ModelPuzzleResult).isLegal = some true) :=
  c3_isCorrect_characterization unitEngine ⟨"p", MateLevel.mate1, "fen", Option.none, "g5h4"⟩ 1
    "g5h4" ParseMethod.uci ⟨"raw", 5, Option.none, Option.none, Option.none⟩ () _
    (by decide) rfl (by decide) (by decide) rfl

end Chessbench
